import Mathlib

/-!
Verification of the Unla declarative gateway core against its source tree.

The source tree contains the gateway configuration documents
(`configs/proxy-mock-server.yaml`, `configs/mcp-gateway.yaml`) and the mock
backend (`cmd/mock-server/backend/http-server.go`).  The gateway engine itself
(template renderer, argument binder, routing table, config store, reload
controller) is described by the specification but its code is not part of the
tree, so those components are modelled from the spec; every such definition
carries a doc comment starting with `Modelled from the spec:`.  The mock
backend handlers and the concrete configuration data are translated directly
from the source files.
-/

namespace Unla

/-! ### JSON values

A first-order model of the JSON trees that flow through the system: bound
argument values, request/response bodies, and the mock backend's data.
Arrays and objects are encoded as cons-chains inside a single inductive so
that all functions over them are structurally recursive and kernel-reducible.
Numbers are modelled as naturals (the source data only uses small non-negative
numerals; Go's float64 representation is out of the modelled fragment). -/
inductive Json where
  | null
  | bool (b : Bool)
  | num (n : Nat)
  | str (s : String)
  | arrNil
  | arrCons (hd tl : Json)
  | objNil
  | objCons (k : String) (v : Json) (tl : Json)
deriving DecidableEq, Repr

/-- Decimal digit characters of a natural number (big-endian). -/
def natChars (n : Nat) : List Char :=
  if n = 0 then ['0']
  else (Nat.digits 10 n).reverse.map (fun d => Char.ofNat (48 + d))

mutual

/-- JSON serialization, modelling Go `encoding/json.Marshal` on the
escape-free fragment: strings are emitted between plain quotes (no escape
sequences), numbers in decimal, arrays and objects without whitespace. -/
def serVal : Json → List Char
  | .null => "null".data
  | .bool true => "true".data
  | .bool false => "false".data
  | .num n => natChars n
  | .str s => '"' :: s.data ++ ['"']
  | .arrNil => ['[', ']']
  | .arrCons h t => '[' :: (serVal h ++ serArrRest t)
  | .objNil => ['\x7b', '\x7d']
  | .objCons k v t => '\x7b' :: ('"' :: k.data ++ '"' :: ':' :: serVal v ++ serObjRest t)

/-- Serialization of the remaining elements of an array chain (after the
first element): either the closing bracket or a comma and more elements. -/
def serArrRest : Json → List Char
  | .arrCons h t => ',' :: (serVal h ++ serArrRest t)
  | _ => [']']

/-- Serialization of the remaining fields of an object chain. -/
def serObjRest : Json → List Char
  | .objCons k v t => ',' :: ('"' :: k.data ++ '"' :: ':' :: serVal v ++ serObjRest t)
  | _ => ['\x7d']

end

/-- JSON serialization to a `String`. -/
def serStr (v : Json) : String := ⟨serVal v⟩

/-- Field lookup in an object chain (first match wins). -/
def jlookup : Json → String → Option Json
  | .objCons k v t, key => if k = key then some v else jlookup t key
  | _, _ => none

/-- Is this value an array chain node? -/
def isArrChain : Json → Bool
  | .arrNil => true
  | .arrCons _ _ => true
  | _ => false

/-- Is this value an object chain node? -/
def isObjChain : Json → Bool
  | .objNil => true
  | .objCons _ _ _ => true
  | _ => false

/-- A character that Go's JSON encoder emits verbatim inside a string
literal: not a quote, backslash, control character, or one of the
HTML-escaped characters. -/
def safeChar (c : Char) : Bool :=
  c ≠ '"' && c ≠ '\\' && decide (32 ≤ c.toNat) && c ≠ '<' && c ≠ '>' && c ≠ '&'

/-- All characters of the string are escape-free. -/
def safeStr (s : String) : Bool := s.data.all safeChar

/-- Well-formed, escape-free JSON values: chain tails have the right shape
and all strings are escape-free (the fragment on which the modelled
serializer agrees with Go's). -/
def Safe : Json → Bool
  | .null => true
  | .bool _ => true
  | .num _ => true
  | .str s => safeStr s
  | .arrNil => true
  | .arrCons h t => Safe h && Safe t && isArrChain t
  | .objNil => true
  | .objCons k v t => safeStr k && Safe v && Safe t && isObjChain t

/-- JSON whitespace. -/
def isWsChar (c : Char) : Bool := c = ' ' || c = '\n' || c = '\t' || c = '\r'

/-- Drop leading JSON whitespace. -/
def skipWs : List Char → List Char
  | [] => []
  | c :: cs => if isWsChar c then skipWs cs else c :: cs

/-- Decimal digit character. -/
def isDigitChar (c : Char) : Bool := 48 ≤ c.toNat && c.toNat ≤ 57

/-- Split off the maximal prefix of digit characters. -/
def takeDigits : List Char → List Char × List Char
  | [] => ([], [])
  | c :: cs =>
    if isDigitChar c then
      let p := takeDigits cs
      (c :: p.1, p.2)
    else ([], c :: cs)

/-- Numeric value of a big-endian list of digit characters. -/
def digitsToNat (l : List Char) : Nat :=
  l.foldl (fun a c => 10 * a + (c.toNat - 48)) 0

/-- Scan a JSON string body up to (and consuming) the closing quote; no
escape sequences are recognized (the escape-free fragment). -/
def takeStr : List Char → Option (List Char × List Char)
  | [] => none
  | c :: cs =>
    if c = '"' then some ([], cs)
    else (takeStr cs).map (fun p => (c :: p.1, p.2))

theorem skipWs_length : ∀ cs : List Char, (skipWs cs).length ≤ cs.length := by
  intro cs
  induction cs with
  | nil => simp [skipWs]
  | cons c cs ih =>
    simp only [skipWs]
    split
    · exact Nat.le_succ_of_le ih
    · simp

theorem takeStr_length : ∀ cs p, takeStr cs = some p → p.2.length < cs.length := by
  intro cs
  induction cs with
  | nil => intro p h; simp [takeStr] at h
  | cons c cs ih =>
    intro p h
    simp only [takeStr] at h
    split at h
    · cases h; simp
    · match h2 : takeStr cs with
      | none => rw [h2] at h; simp at h
      | some q =>
        rw [h2] at h
        simp at h
        have := ih q h2
        cases h; simpa using Nat.lt_succ_of_lt this

theorem takeDigits_length : ∀ cs : List Char, (takeDigits cs).2.length ≤ cs.length := by
  intro cs
  induction cs with
  | nil => simp [takeDigits]
  | cons c cs ih =>
    simp only [takeDigits]
    split
    · exact Nat.le_succ_of_le ih
    · simp

theorem takeDigits_length_cons (c : Char) (cs : List Char) (hc : isDigitChar c = true) :
    (takeDigits (c :: cs)).2.length ≤ cs.length := by
  simp only [takeDigits, hc, if_true]
  exact takeDigits_length cs

/-- Skip whitespace, then consume the expected single character. -/
def expectChar (c : Char) (cs : List Char) : Option (List Char) :=
  match skipWs cs with
  | d :: rest => if d = c then some rest else none
  | [] => none

theorem expectChar_length (c : Char) (cs r : List Char) (h : expectChar c cs = some r) :
    r.length < cs.length := by
  unfold expectChar at h
  match h2 : skipWs cs with
  | [] => rw [h2] at h; simp at h
  | d :: rest =>
    rw [h2] at h
    have h3 := skipWs_length cs; rw [h2] at h3; simp at h3
    simp only at h
    split at h
    · injection h with h; subst h; omega
    · simp at h

/-- Consume an exact literal character sequence. -/
def parseLit : List Char → List Char → Option (List Char)
  | [], cs => some cs
  | _ :: _, [] => none
  | k :: ks, c :: cs => if c = k then parseLit ks cs else none

theorem parseLit_length : ∀ ks cs r, parseLit ks cs = some r → r.length ≤ cs.length := by
  intro ks
  induction ks with
  | nil => intro cs r h; simp [parseLit] at h; simp [h]
  | cons k ks ih =>
    intro cs r h
    match cs with
    | [] => simp [parseLit] at h
    | c :: cs =>
      simp only [parseLit] at h
      split at h
      · have := ih cs r h
        simp only [List.length_cons]; omega
      · simp at h

mutual

/-- Recursive-descent JSON parser over characters.  Returns the parsed value
and the strictly shorter remaining suffix.  Leading whitespace is skipped;
inside containers whitespace is allowed around punctuation. -/
def parseVal (input : List Char) : Option (Json × { r : List Char // r.length < input.length }) :=
  match h : skipWs input with
  | [] => none
  | c :: rest =>
    have hralt : rest.length < input.length := by
      have := skipWs_length input; rw [h] at this; simp at this; omega
    if hdig : isDigitChar c then
      match h2 : takeDigits (c :: rest) with
      | (ds, r) =>
        some (.num (digitsToNat ds), ⟨r, by
          have h3 := takeDigits_length_cons c rest hdig; rw [h2] at h3; simp at h3; omega⟩)
    else if c = '"' then
      match h2 : takeStr rest with
      | some p =>
        some (.str ⟨p.1⟩, ⟨p.2, by have h3 := takeStr_length rest p h2; omega⟩)
      | none => none
    else if c = '[' then
      match h2 : expectChar ']' rest with
      | some r =>
        some (.arrNil, ⟨r, by have h3 := expectChar_length ']' rest r h2; omega⟩)
      | none =>
        match parseVal rest with
        | some (v, r) =>
          match parseArrRest r.val with
          | some (t, r2) =>
            some (.arrCons v t, ⟨r2.val, by
              have h4 := r.property; have h5 := r2.property; omega⟩)
          | none => none
        | none => none
    else if c = '\x7b' then
      match h2 : expectChar '\x7d' rest with
      | some r =>
        some (.objNil, ⟨r, by have h3 := expectChar_length '\x7d' rest r h2; omega⟩)
      | none =>
        match parseObjRest rest with
        | some (t, r2) =>
          some (t, ⟨r2.val, by have h4 := r2.property; omega⟩)
        | none => none
    else if c = 'n' then
      match h2 : parseLit ['u', 'l', 'l'] rest with
      | some r =>
        some (.null, ⟨r, by have h3 := parseLit_length _ rest r h2; omega⟩)
      | none => none
    else if c = 't' then
      match h2 : parseLit ['r', 'u', 'e'] rest with
      | some r =>
        some (.bool true, ⟨r, by have h3 := parseLit_length _ rest r h2; omega⟩)
      | none => none
    else if c = 'f' then
      match h2 : parseLit ['a', 'l', 's', 'e'] rest with
      | some r =>
        some (.bool false, ⟨r, by have h3 := parseLit_length _ rest r h2; omega⟩)
      | none => none
    else none
termination_by input.length

/-- Parse the fields of an object, starting right after the opening brace or
after a previous field's comma; consumes through the closing brace. -/
def parseObjRest (input : List Char) : Option (Json × { r : List Char // r.length < input.length }) :=
  match h : skipWs input with
  | [] => none
  | c :: rest =>
    if c = '"' then
      match h2 : takeStr rest with
      | some p =>
        have hp : p.2.length < input.length := by
          have h3 := takeStr_length rest p h2
          have := skipWs_length input; rw [h] at this; simp at this; omega
        match h3 : expectChar ':' p.2 with
        | some rest2 =>
          have hrest2 : rest2.length < input.length := by
            have h4 := expectChar_length ':' p.2 rest2 h3; omega
          match parseVal rest2 with
          | some (v, r) =>
            match h4 : skipWs r.val with
            | [] => none
            | c2 :: rest3 =>
              have hrest3 : rest3.length < input.length := by
                have h5 := skipWs_length r.val; rw [h4] at h5; simp at h5
                have h6 := r.property; omega
              if c2 = ',' then
                match parseObjRest rest3 with
                | some (t, r2) =>
                  some (.objCons ⟨p.1⟩ v t, ⟨r2.val, by have h6 := r2.property; omega⟩)
                | none => none
              else if c2 = '\x7d' then
                some (.objCons ⟨p.1⟩ v .objNil, ⟨rest3, hrest3⟩)
              else none
          | none => none
        | none => none
      | none => none
    else none
termination_by input.length

/-- Parse the remaining elements of an array, starting right after a
previous element's value; consumes through the closing bracket. -/
def parseArrRest (input : List Char) : Option (Json × { r : List Char // r.length < input.length }) :=
  match h : skipWs input with
  | [] => none
  | c :: rest =>
    have hrest : rest.length < input.length := by
      have := skipWs_length input; rw [h] at this; simp at this; omega
    if c = ']' then
      some (.arrNil, ⟨rest, hrest⟩)
    else if c = ',' then
      match parseVal rest with
      | some (v, r) =>
        match parseArrRest r.val with
        | some (t, r2) =>
          some (.arrCons v t, ⟨r2.val, by
            have h4 := r.property; have h5 := r2.property; omega⟩)
        | none => none
      | none => none
    else none
termination_by input.length

end

/-- Parse a complete JSON document: a value optionally surrounded by
whitespace, with nothing else following. -/
def parseJson (s : String) : Option Json :=
  match parseVal s.data with
  | some (v, ⟨r, _⟩) => if skipWs r = [] then some v else none
  | none => none

/-- Does the input start with a digit character? -/
def headIsDigit : List Char → Bool
  | [] => false
  | c :: _ => isDigitChar c

/-- `parseVal` without the length evidence. -/
def parseValW (cs : List Char) : Option (Json × List Char) :=
  (parseVal cs).map (fun p => (p.1, p.2.val))

/-- `parseArrRest` without the length evidence. -/
def parseArrRestW (cs : List Char) : Option (Json × List Char) :=
  (parseArrRest cs).map (fun p => (p.1, p.2.val))

/-- `parseObjRest` without the length evidence. -/
def parseObjRestW (cs : List Char) : Option (Json × List Char) :=
  (parseObjRest cs).map (fun p => (p.1, p.2.val))

theorem skipWs_cons_not_ws {c : Char} (h : isWsChar c = false) (cs : List Char) :
    skipWs (c :: cs) = c :: cs := by
  simp [skipWs, h]

theorem skipWs_cons_lt {input : List Char} {c : Char} {rest : List Char}
    (h : skipWs input = c :: rest) : rest.length < input.length := by
  have := skipWs_length input
  rw [h] at this
  simp at this
  omega

theorem natChars_zero : natChars 0 = ['0'] := by simp [natChars]

theorem natChars_ne_nil (n : Nat) : natChars n ≠ [] := by
  unfold natChars
  split
  · simp
  · intro h
    rw [List.map_eq_nil_iff, List.reverse_eq_nil_iff] at h
    exact (Nat.digits_ne_nil_iff_ne_zero.mpr (by omega)) h

theorem natChars_all_digits (n : Nat) : ∀ c ∈ natChars n, isDigitChar c = true := by
  unfold natChars
  split
  · intro c hc; simp at hc; subst hc; decide
  · intro c hc
    simp only [List.mem_map, List.mem_reverse] at hc
    obtain ⟨d, hd, rfl⟩ := hc
    have hlt : d < 10 := Nat.digits_lt_base (by norm_num) hd
    interval_cases d <;> decide

theorem digitsToNat_natChars (n : Nat) : digitsToNat (natChars n) = n := by
  unfold natChars
  split
  · subst n; decide
  · unfold digitsToNat
    rw [List.foldl_map, List.foldl_reverse]
    have step : ∀ L : List Nat, (∀ d ∈ L, d < 10) →
        L.foldr (fun d a => 10 * a + ((Char.ofNat (48 + d)).toNat - 48)) 0 =
          Nat.ofDigits 10 L := by
      intro L
      induction L with
      | nil => intro _; simp [Nat.ofDigits]
      | cons d L ih =>
        intro hL
        have hd : d < 10 := hL d (by simp)
        have hL2 : ∀ x ∈ L, x < 10 := fun x hx => hL x (by simp [hx])
        rw [List.foldr_cons, ih hL2, Nat.ofDigits_cons]
        have hchar : (Char.ofNat (48 + d)).toNat - 48 = d := by
          interval_cases d <;> decide
        rw [hchar]
        ring
    have h2 := step (Nat.digits 10 n) (fun d hd => Nat.digits_lt_base (by norm_num) hd)
    have h3 : Nat.ofDigits 10 (Nat.digits 10 n) = n := by
      exact_mod_cast Nat.ofDigits_digits 10 n
    calc (Nat.digits 10 n).foldr
          (fun x y => 10 * y + ((Char.ofNat (48 + x)).toNat - 48)) 0
        = Nat.ofDigits 10 (Nat.digits 10 n) := h2
      _ = n := h3

theorem takeDigits_append (ds rest : List Char) (hds : ∀ c ∈ ds, isDigitChar c = true)
    (hrest : headIsDigit rest = false) : takeDigits (ds ++ rest) = (ds, rest) := by
  induction ds with
  | nil =>
    simp only [List.nil_append]
    match rest with
    | [] => rfl
    | c :: cs =>
      simp only [headIsDigit] at hrest
      simp [takeDigits, hrest]
  | cons d ds ih =>
    have hd : isDigitChar d = true := hds d (by simp)
    have hds2 : ∀ c ∈ ds, isDigitChar c = true := fun c hc => hds c (by simp [hc])
    simp only [List.cons_append, takeDigits, hd, if_true, List.append_eq, ih hds2]

theorem takeStr_append (s rest : List Char) (hs : ∀ c ∈ s, (c = '"') = False) :
    takeStr (s ++ '"' :: rest) = some (s, rest) := by
  induction s with
  | nil => simp [takeStr]
  | cons c cs ih =>
    have hc : (c = '"') = False := hs c (by simp)
    have hs2 : ∀ x ∈ cs, (x = '"') = False := fun x hx => hs x (by simp [hx])
    simp only [List.cons_append, takeStr, hc]
    simp [ih hs2]

theorem safeStr_no_quote {s : String} (h : safeStr s = true) :
    ∀ c ∈ s.data, (c = '"') = False := by
  intro c hc
  unfold safeStr at h
  rw [List.all_eq_true] at h
  have h2 := h c hc
  unfold safeChar at h2
  simp only [Bool.and_eq_true, decide_eq_true_eq, bne_iff_ne, ne_eq] at h2
  simp only [eq_iff_iff, iff_false]
  intro hq
  subst hq
  simp at h2

theorem isWsChar_of_digit {c : Char} (h : isDigitChar c = true) : isWsChar c = false := by
  unfold isDigitChar at h
  simp only [Bool.and_eq_true, decide_eq_true_eq] at h
  unfold isWsChar
  simp only [Bool.or_eq_false_iff, decide_eq_false_iff_not]
  refine ⟨⟨⟨?_, ?_⟩, ?_⟩, ?_⟩ <;> intro hc <;> subst hc <;> simp_all

theorem natChars_cons (n : Nat) :
    ∃ d ds, natChars n = d :: ds ∧ isDigitChar d = true := by
  match h : natChars n with
  | [] => exact absurd h (natChars_ne_nil n)
  | d :: ds =>
    exact ⟨d, ds, rfl, natChars_all_digits n d (by rw [h]; simp)⟩

theorem parseValW_null (input rest : List Char)
    (h : skipWs input = 'n' :: 'u' :: 'l' :: 'l' :: rest) :
    parseValW input = some (.null, rest) := by
  have hl : rest.length < input.length := by
    have h0 := skipWs_cons_lt h; simp at h0; omega
  rw [parseValW, parseVal.eq_def]
  split
  · next heq => rw [h] at heq; cases heq
  · next c rest1 heq =>
    rw [h] at heq
    injection heq with h1 h2
    subst h1; subst h2
    have hd : isDigitChar 'n' = false := by decide
    simp [hd, parseLit, hl]

theorem parseValW_true (input rest : List Char)
    (h : skipWs input = 't' :: 'r' :: 'u' :: 'e' :: rest) :
    parseValW input = some (.bool true, rest) := by
  have hl : rest.length < input.length := by
    have h0 := skipWs_cons_lt h; simp at h0; omega
  rw [parseValW, parseVal.eq_def]
  split
  · next heq => rw [h] at heq; cases heq
  · next c rest1 heq =>
    rw [h] at heq
    injection heq with h1 h2
    subst h1; subst h2
    have hd : isDigitChar 't' = false := by decide
    simp [hd, parseLit, hl]

theorem parseValW_false (input rest : List Char)
    (h : skipWs input = 'f' :: 'a' :: 'l' :: 's' :: 'e' :: rest) :
    parseValW input = some (.bool false, rest) := by
  have hl : rest.length < input.length := by
    have h0 := skipWs_cons_lt h; simp at h0; omega
  rw [parseValW, parseVal.eq_def]
  split
  · next heq => rw [h] at heq; cases heq
  · next c rest1 heq =>
    rw [h] at heq
    injection heq with h1 h2
    subst h1; subst h2
    have hd : isDigitChar 'f' = false := by decide
    simp [hd, parseLit, hl]

theorem parseValW_str (input : List Char) (s : List Char) (rest : List Char)
    (h : skipWs input = '"' :: (s ++ '"' :: rest)) (hs : ∀ c ∈ s, (c = '"') = False) :
    parseValW input = some (.str ⟨s⟩, rest) := by
  have hl : (s ++ '"' :: rest).length < input.length := skipWs_cons_lt h
  rw [parseValW, parseVal.eq_def]
  split
  · next heq => rw [h] at heq; cases heq
  · next c rest1 heq =>
    rw [h] at heq
    injection heq with h1 h2
    subst h1; subst h2
    have hts := takeStr_append s rest hs
    have hd : isDigitChar '"' = false := by decide
    have hl2 : rest.length < input.length := by simp at hl; omega
    simp [hd, hl2]
    split
    · next p heq2 =>
      rw [hts] at heq2
      injection heq2 with hp
      subst hp
      simp
    · next heq2 => rw [hts] at heq2; cases heq2

theorem parseValW_num (input ds rest : List Char)
    (h : skipWs input = ds ++ rest) (hds : ∀ c ∈ ds, isDigitChar c = true)
    (hne : ds ≠ []) (hrest : headIsDigit rest = false) :
    parseValW input = some (.num (digitsToNat ds), rest) := by
  match ds, hne with
  | d :: ds2, _ =>
    have hd : isDigitChar d = true := hds d (by simp)
    rw [parseValW, parseVal.eq_def]
    split
    · next heq => rw [h] at heq; simp at heq
    · next c rest1 heq =>
      rw [h] at heq
      simp only [List.cons_append] at heq
      injection heq with h1 h2
      subst h1; subst h2
      have htd : takeDigits (d :: (ds2 ++ rest)) = (d :: ds2, rest) := by
        have h3 : d :: (ds2 ++ rest) = (d :: ds2) ++ rest := by simp
        rw [h3]
        exact takeDigits_append _ _ hds hrest
      have hl : rest.length < input.length := by
        have h4 := @skipWs_cons_lt input d (ds2 ++ rest) (by rw [h]; simp)
        simp at h4
        omega
      simp [hd, htd, hl]

theorem parseValW_arrNil (input rest1 rest : List Char)
    (h : skipWs input = '[' :: rest1) (h2 : expectChar ']' rest1 = some rest) :
    parseValW input = some (.arrNil, rest) := by
  have hl : rest.length < input.length :=
    (expectChar_length ']' rest1 rest h2).trans (skipWs_cons_lt h)
  rw [parseValW, parseVal.eq_def]
  split
  · next heq => rw [h] at heq; cases heq
  · next c rest2 heq =>
    rw [h] at heq
    injection heq with h1 hrest1
    subst h1; subst hrest1
    have hd : isDigitChar '[' = false := by decide
    simp [hd, hl]
    split
    · next r heq2 =>
      rw [h2] at heq2
      injection heq2 with hr
      subst hr
      simp
    · next heq2 => rw [h2] at heq2; cases heq2

theorem parseValW_arrCons (input rest1 r1 r2 : List Char) (v t : Json)
    (h : skipWs input = '[' :: rest1) (h2 : expectChar ']' rest1 = none)
    (h3 : parseValW rest1 = some (v, r1)) (h4 : parseArrRestW r1 = some (t, r2)) :
    parseValW input = some (.arrCons v t, r2) := by
  rw [parseValW] at h3
  rw [parseArrRestW] at h4
  cases hpv : parseVal rest1 with
  | none => rw [hpv] at h3; simp at h3
  | some p =>
    obtain ⟨v2, rr⟩ := p
    rw [hpv] at h3
    simp at h3
    obtain ⟨hv2, hrr⟩ := h3
    subst hv2
    subst hrr
    cases hpa : parseArrRest rr.val with
    | none => rw [hpa] at h4; simp at h4
    | some q =>
      obtain ⟨t2, rr2⟩ := q
      rw [hpa] at h4
      simp at h4
      obtain ⟨ht2, hrr2⟩ := h4
      subst ht2
      subst hrr2
      rw [parseValW, parseVal.eq_def]
      split
      · next heq => rw [h] at heq; cases heq
      · next c rest2 heq =>
        rw [h] at heq
        injection heq with h1 hrest1
        subst h1; subst hrest1
        have hd : isDigitChar '[' = false := by decide
        have hlt : rr2.val.length < input.length := by
          have a1 := rr2.property
          have a2 := rr.property
          have a3 := skipWs_cons_lt h
          omega
        simp [hd, hlt]
        split
        · next r heq2 => rw [h2] at heq2; cases heq2
        · next heq2 => simp [hpv, hpa, hlt]

theorem parseValW_objNil (input rest1 rest : List Char)
    (h : skipWs input = '\x7b' :: rest1) (h2 : expectChar '\x7d' rest1 = some rest) :
    parseValW input = some (.objNil, rest) := by
  have hl : rest.length < input.length :=
    (expectChar_length '\x7d' rest1 rest h2).trans (skipWs_cons_lt h)
  rw [parseValW, parseVal.eq_def]
  split
  · next heq => rw [h] at heq; cases heq
  · next c rest2 heq =>
    rw [h] at heq
    injection heq with h1 hrest1
    subst h1; subst hrest1
    have hd : isDigitChar '\x7b' = false := by decide
    simp [hd, hl]
    split
    · next r heq2 =>
      rw [h2] at heq2
      injection heq2 with hr
      subst hr
      simp
    · next heq2 => rw [h2] at heq2; cases heq2

theorem parseValW_obj (input rest1 r2 : List Char) (t : Json)
    (h : skipWs input = '\x7b' :: rest1) (h2 : expectChar '\x7d' rest1 = none)
    (h3 : parseObjRestW rest1 = some (t, r2)) :
    parseValW input = some (t, r2) := by
  rw [parseObjRestW] at h3
  cases hpo : parseObjRest rest1 with
  | none => rw [hpo] at h3; simp at h3
  | some p =>
    obtain ⟨t2, rr⟩ := p
    rw [hpo] at h3
    simp at h3
    obtain ⟨ht2, hrr⟩ := h3
    subst ht2
    subst hrr
    rw [parseValW, parseVal.eq_def]
    split
    · next heq => rw [h] at heq; cases heq
    · next c rest2 heq =>
      rw [h] at heq
      injection heq with h1 hrest1
      subst h1; subst hrest1
      have hd : isDigitChar '\x7b' = false := by decide
      have hlt : rr.val.length < input.length := by
        have a1 := rr.property
        have a2 := skipWs_cons_lt h
        omega
      simp [hd, hlt]
      split
      · next r heq2 => rw [h2] at heq2; cases heq2
      · next heq2 => simp [hpo, hlt]

theorem parseArrRestW_close (input rest : List Char)
    (h : skipWs input = ']' :: rest) :
    parseArrRestW input = some (.arrNil, rest) := by
  have hl : rest.length < input.length := skipWs_cons_lt h
  rw [parseArrRestW, parseArrRest.eq_def]
  split
  · next heq => rw [h] at heq; cases heq
  · next c rest1 heq =>
    rw [h] at heq
    injection heq with h1 h2
    subst h1; subst h2
    simp [hl]

theorem parseArrRestW_comma (input rest1 r1 r2 : List Char) (v t : Json)
    (h : skipWs input = ',' :: rest1)
    (h3 : parseValW rest1 = some (v, r1)) (h4 : parseArrRestW r1 = some (t, r2)) :
    parseArrRestW input = some (.arrCons v t, r2) := by
  rw [parseValW] at h3
  rw [parseArrRestW] at h4
  cases hpv : parseVal rest1 with
  | none => rw [hpv] at h3; simp at h3
  | some p =>
    obtain ⟨v2, rr⟩ := p
    rw [hpv] at h3
    simp at h3
    obtain ⟨hv2, hrr⟩ := h3
    subst hv2
    subst hrr
    cases hpa : parseArrRest rr.val with
    | none => rw [hpa] at h4; simp at h4
    | some q =>
      obtain ⟨t2, rr2⟩ := q
      rw [hpa] at h4
      simp at h4
      obtain ⟨ht2, hrr2⟩ := h4
      subst ht2
      subst hrr2
      rw [parseArrRestW, parseArrRest.eq_def]
      split
      · next heq => rw [h] at heq; cases heq
      · next c rest2 heq =>
        rw [h] at heq
        injection heq with h1 hrest1
        subst h1; subst hrest1
        have hne : (',' = ']') = False := by decide
        have hlt : rr2.val.length < input.length := by
          have a1 := rr2.property
          have a2 := rr.property
          have a3 := skipWs_cons_lt h
          omega
        simp [hne, hpv, hpa, hlt]

theorem parseObjRestW_comma (input rest1 r1 r2 r3 r4 r5 : List Char)
    (k : List Char) (v t : Json)
    (h : skipWs input = '"' :: rest1) (h2 : takeStr rest1 = some (k, r1))
    (h3 : expectChar ':' r1 = some r2) (h4 : parseValW r2 = some (v, r3))
    (h5 : skipWs r3 = ',' :: r4) (h6 : parseObjRestW r4 = some (t, r5)) :
    parseObjRestW input = some (.objCons ⟨k⟩ v t, r5) := by
  rw [parseValW] at h4
  rw [parseObjRestW] at h6
  cases hpv : parseVal r2 with
  | none => rw [hpv] at h4; simp at h4
  | some p =>
    obtain ⟨v2, rr⟩ := p
    rw [hpv] at h4
    simp at h4
    obtain ⟨hv2, hrr⟩ := h4
    subst hv2
    subst hrr
    cases hpo : parseObjRest r4 with
    | none => rw [hpo] at h6; simp at h6
    | some q =>
      obtain ⟨t2, rr2⟩ := q
      rw [hpo] at h6
      simp at h6
      obtain ⟨ht2, hrr2⟩ := h6
      subst ht2
      rw [parseObjRestW, parseObjRest.eq_def]
      split
      · next heq => rw [h] at heq; cases heq
      · next c rest2 heq =>
        rw [h] at heq
        injection heq with h1 hrest1
        subst h1; subst hrest1
        simp only [reduceIte]
        split
        · next p heq2 =>
          rw [h2] at heq2
          injection heq2 with hp
          subst hp
          split
          · next rest3 heq3 =>
            rw [h3] at heq3
            injection heq3 with hr3
            subst hr3
            simp only [hpv]
            split
            · next heq4 => rw [h5] at heq4; cases heq4
            · next c2 rest4 heq4 =>
              rw [h5] at heq4
              injection heq4 with hc2 hrest4
              subst hc2; subst hrest4
              simp [hpo, hrr2]
          · next heq3 => rw [h3] at heq3; cases heq3
        · next heq2 => rw [h2] at heq2; cases heq2

theorem parseObjRestW_close (input rest1 r1 r2 r3 r4 : List Char)
    (k : List Char) (v : Json)
    (h : skipWs input = '"' :: rest1) (h2 : takeStr rest1 = some (k, r1))
    (h3 : expectChar ':' r1 = some r2) (h4 : parseValW r2 = some (v, r3))
    (h5 : skipWs r3 = '\x7d' :: r4) :
    parseObjRestW input = some (.objCons ⟨k⟩ v .objNil, r4) := by
  rw [parseValW] at h4
  cases hpv : parseVal r2 with
  | none => rw [hpv] at h4; simp at h4
  | some p =>
    obtain ⟨v2, rr⟩ := p
    rw [hpv] at h4
    simp at h4
    obtain ⟨hv2, hrr⟩ := h4
    subst hv2
    subst hrr
    rw [parseObjRestW, parseObjRest.eq_def]
    split
    · next heq => rw [h] at heq; cases heq
    · next c rest2 heq =>
      rw [h] at heq
      injection heq with h1 hrest1
      subst h1; subst hrest1
      simp only [reduceIte]
      split
      · next p heq2 =>
        rw [h2] at heq2
        injection heq2 with hp
        subst hp
        split
        · next rest3 heq3 =>
          rw [h3] at heq3
          injection heq3 with hr3
          subst hr3
          simp only [hpv]
          split
          · next heq4 => rw [h5] at heq4; cases heq4
          · next c2 rest4 heq4 =>
            rw [h5] at heq4
            injection heq4 with hc2 hrest4
            subst hc2; subst hrest4
            have hne : (Char.ofNat 125 = ',') = False := by decide
            simp
        · next heq3 => rw [h3] at heq3; cases heq3
      · next heq2 => rw [h2] at heq2; cases heq2

/-- Is this value an `objCons` node? -/
def isObjCons : Json → Bool
  | .objCons _ _ _ => true
  | _ => false

/-- The serialization of an object chain's fields (everything after the
opening brace of the first field's object, or after a separating comma). -/
def serObjFields : Json → List Char
  | .objCons k v t => '"' :: k.data ++ '"' :: ':' :: serVal v ++ serObjRest t
  | _ => []

theorem serVal_null : serVal .null = ['n', 'u', 'l', 'l'] := rfl

theorem serVal_true : serVal (.bool true) = ['t', 'r', 'u', 'e'] := rfl

theorem serVal_false : serVal (.bool false) = ['f', 'a', 'l', 's', 'e'] := rfl

theorem serVal_num (n : Nat) : serVal (.num n) = natChars n := rfl

theorem serVal_str (s : String) : serVal (.str s) = '"' :: s.data ++ ['"'] := rfl

theorem serVal_arrNil : serVal .arrNil = ['[', ']'] := rfl

theorem serVal_arrCons (h t : Json) :
    serVal (.arrCons h t) = '[' :: (serVal h ++ serArrRest t) := rfl

theorem serVal_objNil : serVal .objNil = ['\x7b', '\x7d'] := rfl

theorem serVal_objCons (k : String) (v t : Json) :
    serVal (.objCons k v t) = '\x7b' :: serObjFields (.objCons k v t) := rfl

theorem serObjRest_objCons (k : String) (v t : Json) :
    serObjRest (.objCons k v t) = ',' :: serObjFields (.objCons k v t) := rfl

theorem serObjFields_objCons (k : String) (v t : Json) :
    serObjFields (.objCons k v t) =
      '"' :: k.data ++ '"' :: ':' :: serVal v ++ serObjRest t := rfl

theorem serArrRest_arrCons (h t : Json) :
    serArrRest (.arrCons h t) = ',' :: (serVal h ++ serArrRest t) := rfl

theorem expectChar_hit {c : Char} (h : isWsChar c = false) (rest : List Char) :
    expectChar c (c :: rest) = some rest := by
  simp [expectChar, skipWs_cons_not_ws h]

theorem expectChar_miss {c d : Char} (h : isWsChar c = false) (hne : (c = d) = False)
    (cs : List Char) : expectChar d (c :: cs) = none := by
  simp [expectChar, skipWs_cons_not_ws h, hne]

theorem isDigitChar_ne_rb {d : Char} (h : isDigitChar d = true) : (d = ']') = False := by
  simp only [eq_iff_iff, iff_false]
  intro hd
  subst hd
  simp [isDigitChar] at h

theorem serVal_head_cases (v : Json) :
    ∃ c cs, serVal v = c :: cs ∧ isWsChar c = false ∧ (c = ']') = False := by
  match v with
  | .null => exact ⟨'n', _, serVal_null, by decide, by decide⟩
  | .bool true => exact ⟨'t', _, serVal_true, by decide, by decide⟩
  | .bool false => exact ⟨'f', _, serVal_false, by decide, by decide⟩
  | .num n =>
    obtain ⟨d, ds, hnc, hd⟩ := natChars_cons n
    exact ⟨d, ds, by rw [serVal_num, hnc], isWsChar_of_digit hd, isDigitChar_ne_rb hd⟩
  | .str s => exact ⟨'"', _, by rw [serVal_str]; rfl, by decide, by decide⟩
  | .arrNil => exact ⟨'[', _, serVal_arrNil, by decide, by decide⟩
  | .arrCons h t => exact ⟨'[', _, serVal_arrCons h t, by decide, by decide⟩
  | .objNil => exact ⟨'\x7b', _, serVal_objNil, by decide, by decide⟩
  | .objCons k val t => exact ⟨'\x7b', _, serVal_objCons k val t, by decide, by decide⟩

theorem skipWs_serVal_append (v : Json) (rest : List Char) :
    skipWs (serVal v ++ rest) = serVal v ++ rest := by
  obtain ⟨c, cs, hv, hws, _⟩ := serVal_head_cases v
  rw [hv, List.cons_append, skipWs_cons_not_ws hws]

theorem expectChar_rb_serVal (v : Json) (rest : List Char) :
    expectChar ']' (serVal v ++ rest) = none := by
  obtain ⟨c, cs, hv, hws, hne⟩ := serVal_head_cases v
  rw [hv, List.cons_append, expectChar_miss hws hne]

theorem headIsDigit_serArrRest (t : Json) (rest : List Char) :
    headIsDigit (serArrRest t ++ rest) = false := by
  match t with
  | .arrCons h t2 => rw [serArrRest_arrCons]; rfl
  | .null | .bool _ | .num _ | .str _ | .arrNil | .objNil | .objCons _ _ _ =>
    simp [serArrRest, headIsDigit]; rfl

theorem headIsDigit_serObjRest (t : Json) (rest : List Char) :
    headIsDigit (serObjRest t ++ rest) = false := by
  match t with
  | .objCons k v t2 => rw [serObjRest_objCons]; rfl
  | .null | .bool _ | .num _ | .str _ | .arrNil | .arrCons _ _ | .objNil =>
    simp [serObjRest, headIsDigit]; rfl

/-- The serializer/parser roundtrip, for well-formed escape-free values:
any input whose whitespace-stripped form is `serVal` output parses back to
the same value, leaving the suffix intact. -/
theorem parse_serVal_all (v : Json) :
    (Safe v = true → ∀ input rest, headIsDigit rest = false →
      skipWs input = serVal v ++ rest → parseValW input = some (v, rest))
    ∧ (Safe v = true → isArrChain v = true → ∀ rest,
      parseArrRestW (serArrRest v ++ rest) = some (v, rest))
    ∧ (Safe v = true → isObjCons v = true → ∀ rest,
      parseObjRestW (serObjFields v ++ rest) = some (v, rest)) := by
  induction v with
  | null =>
    refine ⟨fun _ input rest _ hin => ?_, fun _ hc => by simp [isArrChain] at hc,
      fun _ hc => by simp [isObjCons] at hc⟩
    exact parseValW_null input rest hin
  | bool b =>
    refine ⟨fun _ input rest _ hin => ?_, fun _ hc => by simp [isArrChain] at hc,
      fun _ hc => by simp [isObjCons] at hc⟩
    cases b
    · exact parseValW_false input rest hin
    · exact parseValW_true input rest hin
  | num n =>
    refine ⟨fun _ input rest hrest hin => ?_, fun _ hc => by simp [isArrChain] at hc,
      fun _ hc => by simp [isObjCons] at hc⟩
    have h := parseValW_num input (natChars n) rest hin
      (natChars_all_digits n) (natChars_ne_nil n) hrest
    rw [digitsToNat_natChars] at h
    exact h
  | str s =>
    refine ⟨fun hv input rest _ hin => ?_, fun _ hc => by simp [isArrChain] at hc,
      fun _ hc => by simp [isObjCons] at hc⟩
    have hsafe : safeStr s = true := hv
    have hin2 : skipWs input = '"' :: (s.data ++ '"' :: rest) := by
      rw [hin, serVal_str]; simp
    exact parseValW_str input s.data rest hin2 (safeStr_no_quote hsafe)
  | arrNil =>
    refine ⟨fun _ input rest _ hin => ?_, fun _ _ rest => ?_,
      fun _ hc => by simp [isObjCons] at hc⟩
    · exact parseValW_arrNil input (']' :: rest) rest hin (expectChar_hit (by decide) rest)
    · exact parseArrRestW_close _ rest (skipWs_cons_not_ws (by decide) _)
  | arrCons h t ihh iht =>
    have main : Safe (.arrCons h t) = true → ∀ rest,
        parseValW (serVal h ++ (serArrRest t ++ rest)) = some (h, serArrRest t ++ rest)
        ∧ parseArrRestW (serArrRest t ++ rest) = some (t, rest) := by
      intro hv rest
      have hsafe : Safe h = true ∧ Safe t = true ∧ isArrChain t = true := by
        have h2 := hv; simp [Safe] at h2; tauto
      exact ⟨ihh.1 hsafe.1 _ _ (headIsDigit_serArrRest t rest)
          (skipWs_serVal_append h (serArrRest t ++ rest)),
        iht.2.1 hsafe.2.1 hsafe.2.2 rest⟩
    refine ⟨fun hv input rest _ hin => ?_, fun hv _ rest => ?_,
      fun _ hc => by simp [isObjCons] at hc⟩
    · have hm := main hv rest
      have hin2 : skipWs input = '[' :: (serVal h ++ (serArrRest t ++ rest)) := by
        rw [hin, serVal_arrCons]
        simp
      refine parseValW_arrCons input (serVal h ++ (serArrRest t ++ rest))
        (serArrRest t ++ rest) rest h t hin2 ?_ hm.1 hm.2
      exact expectChar_rb_serVal h (serArrRest t ++ rest)
    · have hm := main hv rest
      refine parseArrRestW_comma _ (serVal h ++ (serArrRest t ++ rest))
        (serArrRest t ++ rest) rest h t ?_ hm.1 hm.2
      rw [serArrRest_arrCons, List.cons_append, List.append_assoc,
        skipWs_cons_not_ws (by decide)]
  | objNil =>
    refine ⟨fun _ input rest _ hin => ?_, fun _ hc => by simp [isArrChain] at hc,
      fun _ hc => by simp [isObjCons] at hc⟩
    exact parseValW_objNil input ('\x7d' :: rest) rest hin (expectChar_hit (by decide) rest)
  | objCons k val t ihval iht =>
    have fields : Safe (.objCons k val t) = true → ∀ rest,
        parseObjRestW (serObjFields (.objCons k val t) ++ rest) =
          some (.objCons k val t, rest) := by
      intro hv rest
      have hsafe : safeStr k = true ∧ Safe val = true ∧ Safe t = true ∧
          isObjChain t = true := by
        have h2 := hv; simp [Safe] at h2; tauto
      have he : serObjFields (.objCons k val t) ++ rest =
          '"' :: (k.data ++ '"' :: (':' :: (serVal val ++ (serObjRest t ++ rest)))) := by
        rw [serObjFields_objCons]; simp
      have hts : takeStr (k.data ++ '"' :: (':' :: (serVal val ++ (serObjRest t ++ rest)))) =
          some (k.data, ':' :: (serVal val ++ (serObjRest t ++ rest))) :=
        takeStr_append _ _ (safeStr_no_quote hsafe.1)
      have hec : expectChar ':' (':' :: (serVal val ++ (serObjRest t ++ rest))) =
          some (serVal val ++ (serObjRest t ++ rest)) :=
        expectChar_hit (by decide) _
      have hpv : parseValW (serVal val ++ (serObjRest t ++ rest)) =
          some (val, serObjRest t ++ rest) :=
        ihval.1 hsafe.2.1 _ _ (headIsDigit_serObjRest t rest)
          (skipWs_serVal_append val (serObjRest t ++ rest))
      rw [he]
      match t, hsafe.2.2.2 with
      | .objNil, _ =>
        have h5 : skipWs (serObjRest .objNil ++ rest) = '\x7d' :: rest := by
          show skipWs ('\x7d' :: rest) = '\x7d' :: rest
          exact skipWs_cons_not_ws (by decide) _
        have hfin := parseObjRestW_close _ _ _ _ _ _ k.data val
          (skipWs_cons_not_ws (by decide) _) hts hec hpv h5
        simpa using hfin
      | .objCons k2 v2 t2, _ =>
        have hsafet : Safe (.objCons k2 v2 t2) = true := hsafe.2.2.1
        have h5 : skipWs (serObjRest (.objCons k2 v2 t2) ++ rest) =
            ',' :: (serObjFields (.objCons k2 v2 t2) ++ rest) := by
          rw [serObjRest_objCons, List.cons_append, skipWs_cons_not_ws (by decide)]
        have h6 := iht.2.2 hsafet (by simp [isObjCons]) rest
        have hfin := parseObjRestW_comma _ _ _ _ _ _ _ k.data val _
          (skipWs_cons_not_ws (by decide) _) hts hec hpv h5 h6
        simpa using hfin
    refine ⟨fun hv input rest _ hin => ?_, fun _ hc => by simp [isArrChain] at hc,
      fun hv _ rest => fields hv rest⟩
    have hin2 : skipWs input = '\x7b' :: (serObjFields (.objCons k val t) ++ rest) := by
      rw [hin, serVal_objCons]
      simp
    refine parseValW_obj input (serObjFields (.objCons k val t) ++ rest) rest
      (.objCons k val t) hin2 ?_ (fields hv rest)
    rw [serObjFields_objCons]
    simp only [List.cons_append, List.append_assoc]
    exact expectChar_miss (by decide) (by decide) _

/-- Roundtrip at the value level, through leading whitespace. -/
theorem parseValW_serVal (v : Json) (hv : Safe v = true) (input rest : List Char)
    (hrest : headIsDigit rest = false) (hin : skipWs input = serVal v ++ rest) :
    parseValW input = some (v, rest) :=
  (parse_serVal_all v).1 hv input rest hrest hin

/-- Roundtrip at the document level: parsing a serialized safe value
recovers it exactly. -/
theorem parseJson_serStr (v : Json) (hv : Safe v = true) :
    parseJson (serStr v) = some v := by
  have hsw : skipWs (serVal v) = serVal v ++ [] := by
    simpa using skipWs_serVal_append v []
  have h := parseValW_serVal v hv (serVal v) [] rfl hsw
  rw [parseValW] at h
  unfold parseJson serStr
  cases hpv : parseVal (String.data ⟨serVal v⟩) with
  | none => rw [hpv] at h; simp at h
  | some p =>
    obtain ⟨v2, rr⟩ := p
    rw [hpv] at h
    simp at h
    obtain ⟨hv2, hrr⟩ := h
    subst hv2
    simp [hrr, skipWs]

/-- Keys of an object chain, in order. -/
def objKeys : Json → List String
  | .objCons k _ t => k :: objKeys t
  | _ => []

/-- Insert a field into an object chain sorted by key (strict less-than of
the String order).  An already-present key keeps its present value: `goNorm`
processes chains tail-first, so this makes the last occurrence of a
duplicate key win, as sequential assignment into a Go map does. -/
def sortInsert (k : String) (v : Json) : Json → Json
  | .objCons k2 v2 t =>
    if k < k2 then .objCons k v (.objCons k2 v2 t)
    else if k = k2 then .objCons k2 v2 t
    else .objCons k2 v2 (sortInsert k v t)
  | j => .objCons k v j

/-- Sort the fields of an object chain by key, modelling Go's
`encoding/json`, which marshals map keys in sorted order. -/
def sortObj : Json → Json
  | .objCons k v t => sortInsert k v (sortObj t)
  | j => j

/-! ### Template language

Modelled from the spec (§4.1 Template Renderer): the engine code is not in
the source tree.  A template is literal text interleaved with actions
`\x7b\x7b.Path.To.Value\x7d\x7d` or `\x7b\x7b toJSON .Path \x7d\x7d`; the renderer resolves
dotted paths in a four-namespace context (`.Args`, `.Config`,
`.Request.Headers`, `.Response.Data`) and fails with `TemplateError` on a
template that cannot be parsed or a reference to an undeclared path. -/

/-- Error taxonomy of the gateway (spec §7). -/
inductive GwError where
  | configValidationError
  | missingArgument
  | invalidArgument
  | templateError
  | upstreamError
  | upstreamDecodeError
deriving DecidableEq, Repr

/-- One parsed template part: literal text, or an action interpolating a
dotted path (optionally through the built-in `toJSON` function). -/
inductive TplPart where
  | lit (s : List Char)
  | var (path : List String) (useToJson : Bool)
deriving DecidableEq, Repr

/-- Split a character list on a separator character, keeping empty pieces. -/
def splitOnChar (sep : Char) : List Char → List (List Char)
  | [] => [[]]
  | c :: cs =>
    let r := splitOnChar sep cs
    if c = sep then [] :: r
    else match r with
      | p :: ps => (c :: p) :: ps
      | [] => [[c]]

/-- A path segment character: letters and digits (ASCII). -/
def isSegChar (c : Char) : Bool :=
  (65 ≤ c.toNat && c.toNat ≤ 90) || (97 ≤ c.toNat && c.toNat ≤ 122) ||
  (48 ≤ c.toNat && c.toNat ≤ 57) || c = '_'

/-- Modelled from the spec: parse a dotted path `.A.b.c` into its segments;
fails unless it starts with a dot and every segment is a nonempty
identifier. -/
def parsePath (cs : List Char) : Option (List String) :=
  match cs with
  | '.' :: rest =>
    let segs := splitOnChar '.' rest
    if segs.all (fun s => !s.isEmpty && s.all isSegChar) then
      some (segs.map (fun s => (⟨s⟩ : String)))
    else none
  | _ => none

/-- Modelled from the spec: parse the content of one template action:
either a bare dotted path or a `toJSON` call on a dotted path. -/
def parseAction (cs : List Char) : Option TplPart :=
  let toks := (splitOnChar ' ' cs).filter (fun t => !t.isEmpty)
  match toks with
  | [p] => (parsePath p).map (fun path => .var path false)
  | [f, p] =>
    if f = ['t', 'o', 'J', 'S', 'O', 'N'] then
      (parsePath p).map (fun path => .var path true)
    else none
  | _ => none

/-- Modelled from the spec: the template scanner.  `mode = none` scans
literal text and switches on `\x7b\x7b`; `mode = some acc` accumulates action
content (reversed) until `\x7d\x7d`.  An unterminated action, a lone brace
inside an action, or a malformed action is a parse failure. -/
def scanTpl : Option (List Char) → List Char → Option (List TplPart)
  | none, [] => some []
  | none, '\x7b' :: '\x7b' :: rest => scanTpl (some []) rest
  | none, c :: rest =>
    (scanTpl none rest).map (fun ps =>
      match ps with
      | .lit l :: ps2 => .lit (c :: l) :: ps2
      | ps2 => .lit [c] :: ps2)
  | some _, [] => none
  | some acc, '\x7d' :: '\x7d' :: rest =>
    match parseAction acc.reverse with
    | some p => (scanTpl none rest).map (fun ps => p :: ps)
    | none => none
  | some _, '\x7d' :: _ => none
  | some _, '\x7b' :: _ => none
  | some acc, c :: rest => scanTpl (some (c :: acc)) rest

/-- Parse a template string into its parts; `none` is a `TemplateError`. -/
def parseTemplate (tpl : String) : Option (List TplPart) :=
  scanTpl none tpl.data

/-- Association list lookup (first match). -/
def lookupAssoc {α : Type} : List (String × α) → String → Option α
  | [], _ => none
  | (k, v) :: rest, key => if k = key then some v else lookupAssoc rest key

/-- Dotted-path descent into a parsed JSON tree. -/
def jlookupPath : Json → List String → Option Json
  | v, [] => some v
  | v, p :: ps => match jlookup v p with
    | some v2 => jlookupPath v2 ps
    | none => none

/-- Modelled from the spec: the four-namespace render context.  `.Config`
values are the owning server's config map with templates already resolved
at load time; `.Response` is populated only for response-template
rendering. -/
structure RenderCtx where
  args : List (String × Json)
  config : List (String × String)
  reqHeaders : List (String × String)
  response : Option Json
deriving Repr

/-- Resolve a dotted path against the context namespaces. -/
def lookupPath (ctx : RenderCtx) : List String → Option Json
  | ["Args", a] => lookupAssoc ctx.args a
  | ["Config", c] => (lookupAssoc ctx.config c).map .str
  | ["Request", "Headers", hn] => (lookupAssoc ctx.reqHeaders hn).map .str
  | "Response" :: "Data" :: ps =>
    match ctx.response with
    | some data => jlookupPath data ps
    | none => none
  | _ => none

/-- Modelled from the spec: scalar interpolation inserts the value's
literal textual form without quotes; a structured value (array/object)
interpolated without `toJSON` is serialized to its JSON text, which is
what `toJSON` produces as well (the spec fixes scalar interpolation and
`toJSON`; the source templates interpolate arrays bare in JSON positions,
so bare structured interpolation is modelled as JSON serialization). -/
def interpVal : Json → List Char
  | .str s => s.data
  | v => serVal v

/-- Render parsed template parts against a context; a reference to an
undeclared path is a `TemplateError`. -/
def renderParts (ctx : RenderCtx) : List TplPart → Except GwError (List Char)
  | [] => .ok []
  | .lit l :: ps =>
    match renderParts ctx ps with
    | .ok r => .ok (l ++ r)
    | .error e => .error e
  | .var path tj :: ps =>
    match lookupPath ctx path with
    | none => .error .templateError
    | some v =>
      match renderParts ctx ps with
      | .ok r => .ok ((if tj then serVal v else interpVal v) ++ r)
      | .error e => .error e

/-- `Render(template, context)`: parse then substitute (spec §4.1). -/
def render (tpl : String) (ctx : RenderCtx) : Except GwError String :=
  match parseTemplate tpl with
  | none => .error .templateError
  | some ps =>
    match renderParts ctx ps with
    | .ok r => .ok ⟨r⟩
    | .error e => .error e

/-! ### Argument schemas and the Binder

Modelled from the spec (§3 Arg, §4.2 Argument Binder): recursive argument
schemas (array of object with nested properties, `enum` constraints on leaf
string items), validated by structural recursion. -/

/-- Recursive argument type schema (spec §3, design note on recursive
tagged-union argument schemas).  Object properties are encoded as a
`propNil`/`propCons` chain so that all recursion is structural. -/
inductive TypeSchema where
  | str (enum : Option (List String))
  | boolean
  | number
  | arr (items : TypeSchema)
  | propNil
  | propCons (k : String) (v : TypeSchema) (tl : TypeSchema)
deriving DecidableEq, Repr

/-- Does `f` hold of every element of an array chain (and is the value an
array chain at all)? -/
def allChainItems (f : Json → Bool) : Json → Bool
  | .arrNil => true
  | .arrCons h t => f h && allChainItems f t
  | _ => false

/-- Modelled from the spec: recursive validation of a structured value
against a declared schema, including `enum` membership for leaf string
items.  A declared object property that is absent is accepted (the schema
constrains the shape of what is present); a present property must
validate. -/
def validateValue : TypeSchema → Json → Bool
  | .str none, .str _ => true
  | .str (some es), .str s => es.contains s
  | .str _, _ => false
  | .boolean, .bool _ => true
  | .boolean, _ => false
  | .number, .num _ => true
  | .number, _ => false
  | .arr items, v => allChainItems (validateValue items) v
  | .propNil, v => isObjChain v
  | .propCons k ks tl, v =>
    (match jlookup v k with
     | some v2 => validateValue ks v2
     | none => true) && validateValue tl v

/-- Declared tool argument (spec §3 Arg). -/
structure ArgDef where
  name : String
  position : String
  required : Bool
  schema : TypeSchema
  dflt : String
deriving DecidableEq, Repr

/-- Modelled from the spec: the inbound invocation carries a structured
argument payload plus the positional parameter sources and the inbound
headers (spec §6 invocation boundary, §4.2). -/
structure Invocation where
  pathParams : List (String × String)
  queryParams : List (String × String)
  bodyArgs : List (String × Json)
  formFields : List (String × String)
  headers : List (String × String)
deriving Repr

/-- The raw value present at an argument's declared position, if any. -/
def rawValueAt (inv : Invocation) (a : ArgDef) : Option Json :=
  match a.position with
  | "path" => (lookupAssoc inv.pathParams a.name).map .str
  | "query" => (lookupAssoc inv.queryParams a.name).map .str
  | "body" => lookupAssoc inv.bodyArgs a.name
  | "form-data" => (lookupAssoc inv.formFields a.name).map .str
  | _ => none

/-- ASCII lowercasing (Go's case-insensitive boolean parse is ASCII). -/
def lowerChar (c : Char) : Char :=
  if 65 ≤ c.toNat && c.toNat ≤ 90 then Char.ofNat (c.toNat + 32) else c

/-- Lowercase a string character-wise. -/
def lowerStr (s : String) : String := ⟨s.data.map lowerChar⟩

/-- Modelled from the spec: `boolean` coercion accepts true/false
case-insensitively. -/
def coerceBool : Json → Option Bool
  | .bool b => some b
  | .str s =>
    if lowerStr s = "true" then some true
    else if lowerStr s = "false" then some false
    else none
  | _ => none

/-- Modelled from the spec: `number` must parse as a numeric literal. -/
def coerceNum : Json → Option Nat
  | .num n => some n
  | .str s =>
    if s.data ≠ [] && s.data.all isDigitChar then some (digitsToNat s.data)
    else none
  | _ => none

/-- Modelled from the spec: coerce and validate one present value against
the declared type; a failure is `InvalidArgument`. -/
def coerceValue (sch : TypeSchema) (v : Json) : Except GwError Json :=
  match sch with
  | .str none =>
    match v with
    | .str s => .ok (.str s)
    | _ => .error .invalidArgument
  | .str (some es) =>
    match v with
    | .str s => if es.contains s then .ok (.str s) else .error .invalidArgument
    | _ => .error .invalidArgument
  | .boolean =>
    match coerceBool v with
    | some b => .ok (.bool b)
    | none => .error .invalidArgument
  | .number =>
    match coerceNum v with
    | some n => .ok (.num n)
    | none => .error .invalidArgument
  | sch =>
    if validateValue sch v then .ok v else .error .invalidArgument

/-- Modelled from the spec: an absent optional argument takes its declared
default; strings are literal, `array`/`object` defaults are parsed
according to the declared type (`"[]"` → empty array, `"\x7b\x7d"` → empty
object). -/
def defaultValue (a : ArgDef) : Except GwError Json :=
  match a.schema with
  | .str _ => .ok (.str a.dflt)
  | .boolean =>
    match coerceBool (.str a.dflt) with
    | some b => .ok (.bool b)
    | none => .error .invalidArgument
  | .number =>
    match coerceNum (.str a.dflt) with
    | some n => .ok (.num n)
    | none => .error .invalidArgument
  | _ =>
    match parseJson a.dflt with
    | some v => .ok v
    | none => .error .invalidArgument

/-- Modelled from the spec: bind one declared argument.  Absent and
required fails with `MissingArgument`; absent and optional takes the
default; a present value is coerced and validated. -/
def bindArg (inv : Invocation) (a : ArgDef) : Except GwError Json :=
  match rawValueAt inv a with
  | none =>
    if a.required then .error .missingArgument
    else defaultValue a
  | some v => coerceValue a.schema v

/-- Modelled from the spec: `Bind(tool, invocation)` processes the declared
arguments in declaration order, failing fast; it produces an independent
typed snapshot consumed by the Renderer. -/
def bindArgs (inv : Invocation) : List ArgDef → Except GwError (List (String × Json))
  | [] => .ok []
  | a :: rest =>
    match bindArg inv a with
    | .error e => .error e
    | .ok v =>
      match bindArgs inv rest with
      | .ok vs => .ok ((a.name, v) :: vs)
      | .error e => .error e

/-! ### Tools, config, routing, reload

Config Model (spec §3), Routing Table (§4.4), Config Store and Reload
Controller (§4.5) — modelled from the spec; the concrete configuration
data below is translated from `configs/proxy-mock-server.yaml`. -/

/-- Declared tool (spec §3 Tool). -/
structure ToolDef where
  name : String
  method : String
  endpoint : String
  headers : List (String × String)
  args : List ArgDef
  requestBody : Option String
  responseBody : String
deriving Repr

/-- Declared router (spec §3 Router; CORS policy omitted — it is enforced
outside the modelled core). -/
structure RouterDef where
  pfx : String
  server : String
deriving DecidableEq, Repr

/-- Declared server (spec §3 Server); `config` values carry their
load-time-resolved textual form. -/
structure ServerCfg where
  name : String
  allowedTools : List String
  config : List (String × String)
deriving Repr

/-- The config document (spec §3 Config). -/
structure Config where
  name : String
  tenant : String
  routers : List RouterDef
  servers : List ServerCfg
  tools : List ToolDef
deriving Repr

/-- All template strings a tool declares, in rendering order. -/
def toolTemplates (t : ToolDef) : List String :=
  t.headers.map (·.2) ++ (match t.requestBody with
    | some b => [b]
    | none => []) ++ [t.responseBody]

/-- Modelled from the spec: load-time validation (spec §3 invariant and
§4.4 build step): every `Router.server` and every `Server.allowedTools`
entry must resolve, server and tool names are unique keys, and every tool
template must parse (the open question on the malformed `weather`
template is resolved by rejecting at load time with `TemplateError`). -/
def validateConfig (cfg : Config) : Except GwError Unit :=
  if !(cfg.routers.all (fun r => cfg.servers.any (fun s => s.name = r.server))) then
    .error .configValidationError
  else if !(cfg.servers.all (fun s =>
      s.allowedTools.all (fun tn => cfg.tools.any (fun t => t.name = tn)))) then
    .error .configValidationError
  else if !((cfg.servers.map (·.name)).Nodup ∧ (cfg.tools.map (·.name)).Nodup : Bool)
  then .error .configValidationError
  else if !(cfg.tools.all (fun t =>
      (toolTemplates t).all (fun tpl => (parseTemplate tpl).isSome))) then
    .error .templateError
  else .ok ()

/-- The effective tool set of a server (spec §4.4 build step): the
intersection of its `allowedTools` list and the globally-defined tools. -/
def effectiveTools (cfg : Config) (s : ServerCfg) : List String :=
  s.allowedTools.filter (fun tn => cfg.tools.any (fun t => t.name = tn))

/-- The server bound to a prefix by the routers (spec §4.4 build step). -/
def serverBound (cfg : Config) (pfx : String) : Option ServerCfg :=
  match cfg.routers.find? (fun r => r.pfx = pfx) with
  | some r => cfg.servers.find? (fun s => s.name = r.server)
  | none => none

/-- Modelled from the spec: `Resolve(prefix, toolName)` — pure lookup
against a snapshot: find the router by prefix, its server, check the
allow-list, and return the server together with the tool definition;
`none` is `NotFound`. -/
def resolve (cfg : Config) (pfx toolName : String) : Option (ServerCfg × ToolDef) :=
  match serverBound cfg pfx with
  | none => none
  | some s =>
    if s.allowedTools.contains toolName then
      match cfg.tools.find? (fun t => t.name = toolName) with
      | some t => some (s, t)
      | none => none
    else none

/-- Resolution against a store snapshot (empty before any load). -/
def storeResolve (store : Option Config) (pfx toolName : String) :
    Option (ServerCfg × ToolDef) :=
  match store with
  | some cfg => resolve cfg pfx toolName
  | none => none

/-- The storage collaborator's outcome for one reload cycle: raw config
loaded successfully, or a storage failure (spec §6 storage contract). -/
inductive LoadResult where
  | ok (cfg : Config)
  | loadError
deriving Repr

/-- Modelled from the spec: one reload cycle of the Reload Controller
(spec §4.5): fetch → validate → on success swap into the Store; on any
failure leave the previous Config active. -/
def applyReload (store : Option Config) (lr : LoadResult) : Option Config :=
  match lr with
  | .loadError => store
  | .ok cfg =>
    match validateConfig cfg with
    | .ok _ => some cfg
    | .error _ => store

/-- `n` reload cycles against the same stored config (spec §4.5
idempotence; the Notifier delivers at-least-once, so duplicates occur). -/
def applyReloadN : Nat → Option Config → LoadResult → Option Config
  | 0, store, _ => store
  | n + 1, store, lr => applyReloadN n (applyReload store lr) lr

/-! ### Tool invocation pipeline

Modelled from the spec (§4.3): Bind → render headers → render body →
dispatch → decode → render response, a strict forward progression; the
list of dispatched request bodies is returned alongside the outcome so
that "no upstream call occurs" is expressible. -/

/-- Terminal pipeline outcome (spec §4.3). -/
inductive PipelineResult where
  | success (result : String)
  | failed (e : GwError)
deriving DecidableEq, Repr

/-- Render every header template (spec §4.3 HeadersRendered). -/
def renderHeaders (ctx : RenderCtx) : List (String × String) →
    Except GwError (List (String × String))
  | [] => .ok []
  | (hn, tpl) :: rest =>
    match render tpl ctx with
    | .error e => .error e
    | .ok v =>
      match renderHeaders ctx rest with
      | .ok vs => .ok ((hn, v) :: vs)
      | .error e => .error e

/-- Modelled from the spec: one pipeline run.  `upstream` is the external
backend (body ↦ status and response body); the second component of the
result is the list of dispatched upstream request bodies. -/
def runPipeline (t : ToolDef) (serverConfig : List (String × String))
    (inv : Invocation) (upstream : String → Nat × String) :
    PipelineResult × List String :=
  match bindArgs inv t.args with
  | .error e => (.failed e, [])
  | .ok bound =>
    let ctx : RenderCtx := ⟨bound, serverConfig, inv.headers, none⟩
    match renderHeaders ctx t.headers with
    | .error e => (.failed e, [])
    | .ok _ =>
      match (match t.requestBody with
             | some b => (render b ctx).map some
             | none => .ok none) with
      | .error e => (.failed e, [])
      | .ok bodyOpt =>
        let body := bodyOpt.getD ""
        let (status, respBody) := upstream body
        if status < 200 || 300 ≤ status then
          (.failed .upstreamError, [body])
        else
          match parseJson respBody with
          | none => (.failed .upstreamDecodeError, [body])
          | some data =>
            let ctx2 : RenderCtx := ⟨bound, serverConfig, inv.headers, some data⟩
            match render t.responseBody ctx2 with
            | .error e => (.failed e, [body])
            | .ok out => (.success out, [body])

/-! ### Mock backend

Translated from `src/cmd/mock-server/backend/http-server.go`.  Go's
`encoding/json` unmarshalling semantics (gin's `ShouldBindJSON`) are
modelled entry by entry: an object's entries are decoded sequentially into
the struct, each key matching a field by its JSON tag, preferring an exact
match but also accepting a case-insensitive one; a `null` value is a no-op,
a duplicate key's later value overwrites (for maps, merges into) the
earlier one, and a type-mismatched value at any occurrence is a binding
error.  Slices and maps distinguish `nil` (marshalled as `null`) from
empty; a re-decoded slice reuses its backing array, so a `null` element
keeps the stale element.  `time.Time` is modelled as its RFC3339 string,
with `time.Time.UnmarshalJSON`'s strict format check (`isRFC3339`); the
zero time is marked `""` and never marshalled, since `POST /users` always
overwrites `CreatedAt`.  `json.Marshal` serializes maps with sorted keys,
modelled by `goNorm`. -/

/-- `Notification` struct of the mock backend (`type` is a reserved word in
Lean, hence `ntype`).  `Frequency float64` is modelled as `Nat` (the
backend only stores and echoes it). -/
structure Notification where
  ntype : String
  channel : String
  enabled : Bool
  frequency : Nat
deriving DecidableEq, Repr

/-- The anonymous preferences struct of `User` (and of the PUT handler's
request binding). -/
structure Preferences where
  isPublic : Bool
  showEmail : Bool
  theme : String
  tags : Option (List String)
  settings : Option Json
  notifications : Option (List Notification)
deriving DecidableEq, Repr

/-- `User` struct of the mock backend. -/
structure User where
  id : String
  username : String
  email : String
  createdAt : String
  preferences : Preferences
deriving DecidableEq, Repr

/-- The zero value of the preferences struct (Go zero value: false
booleans, empty string, nil slices and map). -/
def zeroPreferences : Preferences := ⟨false, false, "", none, none, none⟩

/-- The zero `Notification`. -/
def zeroNotification : Notification := ⟨"", "", false, 0⟩

/-- Go `json.Marshal` canonicalization of a decoded `any` tree: map keys
are emitted in sorted order, recursively, duplicates collapsing to the
last occurrence (`sortInsert`); a decoded `map[string]any` is represented
by this canonical form, its only observable shape. -/
def goNorm : Json → Json
  | .objCons k v t => sortInsert k (goNorm v) (goNorm t)
  | .arrCons h t => .arrCons (goNorm h) (goNorm t)
  | j => j

/-- The values of the object entries whose key matches a struct field's
JSON tag, in body order.  `encoding/json` matches a key to a field
preferring an exact match but also accepting a case-insensitive one
(`strings.EqualFold`); the tag names in play are ASCII and pairwise
case-insensitively distinct, so a key feeds a field exactly when the
ASCII-folded names agree. -/
def matchingValues : Json → String → List Json
  | .objCons k v t, field =>
    if lowerStr k = lowerStr field then v :: matchingValues t field
    else matchingValues t field
  | _, _ => []

/-- Sequential decode of the matched values into a `string` field: `null`
is a no-op, a string overwrites (the last occurrence wins), any other
value is a type error. -/
def foldStrF (cur : String) : List Json → Option String
  | [] => some cur
  | .null :: rest => foldStrF cur rest
  | .str s :: rest => foldStrF s rest
  | _ => none

/-- Sequential decode into a `bool` field. -/
def foldBoolF (cur : Bool) : List Json → Option Bool
  | [] => some cur
  | .null :: rest => foldBoolF cur rest
  | .bool b :: rest => foldBoolF b rest
  | _ => none

/-- Decode a `bool` field of an object body. -/
def decodeBoolF (body : Json) (k : String) : Option Bool :=
  foldBoolF false (matchingValues body k)

/-- Sequential decode into a `float64` field. -/
def foldNumF (cur : Nat) : List Json → Option Nat
  | [] => some cur
  | .null :: rest => foldNumF cur rest
  | .num n :: rest => foldNumF n rest
  | _ => none

/-- Decode a number field of an object body. -/
def decodeNumF (body : Json) (k : String) : Option Nat :=
  foldNumF 0 (matchingValues body k)

/-- Decode a JSON array into `[]string` over the slice's stale backing
elements: `encoding/json` resets the length and decodes element-wise into
the reused backing array, so a `null` element keeps the stale value (`""`
beyond the stale length) and a non-string element is a type error. -/
def decodeStrListInto : List String → Json → Option (List String)
  | _, .arrNil => some []
  | stale, .arrCons .null t =>
    (decodeStrListInto (stale.drop 1) t).map (fun l => stale.headD "" :: l)
  | stale, .arrCons (.str s) t =>
    (decodeStrListInto (stale.drop 1) t).map (fun l => s :: l)
  | _, _ => none

/-- Sequential decode into the `Tags []string` field: `null` is a no-op, an
array overwrites the slice (decoding over its stale backing), anything
else is a type error. -/
def foldTagsF (cur : Option (List String)) :
    List Json → Option (Option (List String))
  | [] => some cur
  | .null :: rest => foldTagsF cur rest
  | v :: rest =>
    match decodeStrListInto (cur.getD []) v with
    | some l => foldTagsF (some l) rest
    | none => none

/-- Decode the `Tags []string` field (`nil` when never assigned). -/
def decodeTagsF (body : Json) : Option (Option (List String)) :=
  foldTagsF none (matchingValues body "tags")

/-- Append the entries of one object chain in front of another's. -/
def objAppend : Json → Json → Json
  | .objCons k v t, rest => .objCons k v (objAppend t rest)
  | _, rest => rest

/-- Sequential decode into the `Settings map[string]any` field: a JSON
object's entries are assigned into the (possibly reused) map in order,
later values per key winning — `Unmarshal` keeps an existing map and adds
to it — with the map held in its canonical marshalled form (`goNorm`).
`null` is a no-op and a non-object value a type error. -/
def foldSettingsF (cur : Option Json) : List Json → Option (Option Json)
  | [] => some cur
  | .null :: rest => foldSettingsF cur rest
  | v :: rest =>
    if isObjChain v then
      foldSettingsF (some (goNorm (objAppend (cur.getD .objNil) v))) rest
    else none

/-- Decode the `Settings map[string]any` field. -/
def decodeSettingsF (body : Json) : Option (Option Json) :=
  foldSettingsF none (matchingValues body "settings")

/-- Decode one JSON value into a `Notification` slot: `null` keeps the
current value, an object binds the four tagged fields into it (each field
decoded sequentially from its matching entries), anything else is a type
error. -/
def decodeNotificationInto (cur : Notification) (j : Json) : Option Notification :=
  match j with
  | .null => some cur
  | _ =>
    if isObjChain j then
      match foldStrF cur.ntype (matchingValues j "type"),
          foldStrF cur.channel (matchingValues j "channel"),
          foldBoolF cur.enabled (matchingValues j "enabled"),
          foldNumF cur.frequency (matchingValues j "frequency") with
      | some ty, some ch, some en, some fr => some ⟨ty, ch, en, fr⟩
      | _, _, _, _ => none
    else none

/-- Decode a JSON array into `[]Notification` over the slice's stale
backing elements. -/
def decodeNotifListInto : List Notification → Json → Option (List Notification)
  | _, .arrNil => some []
  | stale, .arrCons h t =>
    match decodeNotificationInto (stale.headD zeroNotification) h,
        decodeNotifListInto (stale.drop 1) t with
    | some n, some ns => some (n :: ns)
    | _, _ => none
  | _, _ => none

/-- Sequential decode into the `Notifications []Notification` field. -/
def foldNotifsF (cur : Option (List Notification)) :
    List Json → Option (Option (List Notification))
  | [] => some cur
  | .null :: rest => foldNotifsF cur rest
  | v :: rest =>
    match decodeNotifListInto (cur.getD []) v with
    | some ns => foldNotifsF (some ns) rest
    | none => none

/-- Decode the `Notifications []Notification` field. -/
def decodeNotifsF (body : Json) : Option (Option (List Notification)) :=
  foldNotifsF none (matchingValues body "notifications")

/-- Bind a JSON object's entries into a current preferences struct: every
field decodes sequentially from its matching entries, starting from the
current value (so a duplicate `preferences` key in a `User` body merges
field-wise). -/
def bindPrefsFields (cur : Preferences) (body : Json) : Option Preferences :=
  match foldBoolF cur.isPublic (matchingValues body "isPublic"),
      foldBoolF cur.showEmail (matchingValues body "showEmail"),
      foldStrF cur.theme (matchingValues body "theme"),
      foldTagsF cur.tags (matchingValues body "tags"),
      foldSettingsF cur.settings (matchingValues body "settings"),
      foldNotifsF cur.notifications (matchingValues body "notifications") with
  | some p, some se, some th, some tg, some st, some nf =>
    some ⟨p, se, th, tg, st, nf⟩
  | _, _, _, _, _, _ => none

/-- Decode one JSON value into a preferences struct slot: `null` is a
no-op, an object binds field-wise, anything else is a type error. -/
def decodePreferencesInto (cur : Preferences) (body : Json) : Option Preferences :=
  match body with
  | .null => some cur
  | _ => if isObjChain body then bindPrefsFields cur body else none

/-- `ShouldBindJSON` into the preferences struct: the body must be a JSON
object (or `null`, which Go decodes as a no-op into the zero struct). -/
def decodePreferences (body : Json) : Option Preferences :=
  decodePreferencesInto zeroPreferences body

/-- Marshal one `Notification` (struct field order). -/
def notifToJson (n : Notification) : Json :=
  .objCons "type" (.str n.ntype)
    (.objCons "channel" (.str n.channel)
      (.objCons "enabled" (.bool n.enabled)
        (.objCons "frequency" (.num n.frequency) .objNil)))

/-- Marshal a list as an array chain. -/
def listToArr : List Json → Json
  | [] => .arrNil
  | v :: vs => .arrCons v (listToArr vs)

/-- Marshal the preferences struct (struct field order; `nil` slices and
maps marshal as `null`). -/
def prefsToJson (p : Preferences) : Json :=
  .objCons "isPublic" (.bool p.isPublic)
    (.objCons "showEmail" (.bool p.showEmail)
      (.objCons "theme" (.str p.theme)
        (.objCons "tags" (match p.tags with
            | none => .null
            | some l => listToArr (l.map .str))
          (.objCons "settings" (match p.settings with
              | none => .null
              | some j => goNorm j)
            (.objCons "notifications" (match p.notifications with
                | none => .null
                | some ns => listToArr (ns.map notifToJson)) .objNil)))))

/-- Marshal a `User` (what `c.JSON` emits). -/
def userToJson (u : User) : Json :=
  .objCons "id" (.str u.id)
    (.objCons "username" (.str u.username)
      (.objCons "email" (.str u.email)
        (.objCons "createdAt" (.str u.createdAt)
          (.objCons "preferences" (prefsToJson u.preferences) .objNil))))

/-- Set a key in an association list (replace or append). -/
def insertAssoc {α : Type} : List (String × α) → String → α → List (String × α)
  | [], k, v => [(k, v)]
  | (k2, v2) :: rest, k, v =>
    if k2 = k then (k, v) :: rest else (k2, v2) :: insertAssoc rest k v

/-- The error body `gin.H\x7b"error": err.Error()\x7d` (the Go error message
string is abstracted to a fixed marker). -/
def errBody : Json := .objCons "error" (.str "binding error") .objNil

/-- The `PUT /users/:email/preferences` handler: 404 for an unknown user,
400 on a binding failure (stored user untouched), otherwise the user's
whole preferences struct is replaced and the updated user is answered
with 200. -/
def putPreferences (users : List (String × User)) (email : String)
    (body : Json) : Nat × Json × List (String × User) :=
  match lookupAssoc users email with
  | none => (404, .objCons "error" (.str "user not found") .objNil, users)
  | some u =>
    match decodePreferences body with
    | none => (400, errBody, users)
    | some p =>
      let u2 : User := { u with preferences := p }
      (200, userToJson u2, insertAssoc users email u2)

/-! ### The source configuration

Translated from `src/configs/proxy-mock-server.yaml`: the `mock-server`
tenant with one router and five tools.  Block-scalar template bodies are
embedded verbatim.  The server `config` map carries its load-time-resolved
values: the numeric `Cookie: 123` scalar coerced to its textual form, and
`Authorization`, whose `env "AUTH_TOKEN"` lookup is resolved at load time,
parameterized by the resolved token. -/

/-- `tools[0]`: `register_user`. -/
def registerUserTool : ToolDef where
  name := "register_user"
  method := "POST"
  endpoint := "http://localhost:5236/users"
  headers := [("Content-Type", "application/json"),
    ("Authorization", "\x7b\x7b.Config.Authorization\x7d\x7d"),
    ("Cookie", "\x7b\x7b.Config.Cookie\x7d\x7d")]
  args := [
    ⟨"username", "body", true, .str none, ""⟩,
    ⟨"email", "body", true, .str none, ""⟩]
  requestBody := some "\x7b\n  \"username\": \"\x7b\x7b.Args.username\x7d\x7d\",\n  \"email\": \"\x7b\x7b.Args.email\x7d\x7d\"\n\x7d"
  responseBody := "\x7b\n  \"id\": \"\x7b\x7b.Response.Data.id\x7d\x7d\",\n  \"username\": \"\x7b\x7b.Response.Data.username\x7d\x7d\",\n  \"email\": \"\x7b\x7b.Response.Data.email\x7d\x7d\",\n  \"createdAt\": \"\x7b\x7b.Response.Data.createdAt\x7d\x7d\"\n\x7d"

/-- `tools[1]`: `get_user_by_email`. -/
def getUserByEmailTool : ToolDef where
  name := "get_user_by_email"
  method := "GET"
  endpoint := "http://localhost:5236/users/email/\x7b\x7b.Args.email\x7d\x7d"
  headers := []
  args := [⟨"email", "path", true, .str none, ""⟩]
  requestBody := none
  responseBody := "\x7b\n  \"id\": \"\x7b\x7b.Response.Data.id\x7d\x7d\",\n  \"username\": \"\x7b\x7b.Response.Data.username\x7d\x7d\",\n  \"email\": \"\x7b\x7b.Response.Data.email\x7d\x7d\",\n  \"createdAt\": \"\x7b\x7b.Response.Data.createdAt\x7d\x7d\"\n\x7d"

/-- The `items` schema of the `tags` argument: enum-constrained strings. -/
def tagsItemSchema : TypeSchema :=
  .str (some ["developer", "designer", "manager", "tester"])

/-- The `items` schema of the `notifications` argument: an object with
four declared properties. -/
def notificationItemSchema : TypeSchema :=
  .propCons "type" (.str none)
    (.propCons "channel" (.str none)
      (.propCons "enabled" .boolean
        (.propCons "frequency" .number .propNil)))

/-- `tools[2]`: `update_user_preferences`. -/
def updateUserPreferencesTool : ToolDef where
  name := "update_user_preferences"
  method := "PUT"
  endpoint := "http://localhost:5236/users/\x7b\x7b.Args.email\x7d\x7d/preferences"
  headers := [("Content-Type", "application/json"),
    ("Authorization", "\x7b\x7b.Request.Headers.Authorization\x7d\x7d"),
    ("Cookie", "\x7b\x7b.Config.Cookie\x7d\x7d")]
  args := [
    ⟨"email", "path", true, .str none, ""⟩,
    ⟨"isPublic", "body", true, .boolean, "false"⟩,
    ⟨"showEmail", "body", true, .boolean, "true"⟩,
    ⟨"theme", "body", true, .str none, "light"⟩,
    ⟨"tags", "body", true, .arr tagsItemSchema, "[]"⟩,
    ⟨"settings", "body", false, .propNil, "\x7b\x7d"⟩,
    ⟨"notifications", "body", false, .arr notificationItemSchema, "[]"⟩]
  requestBody := some "\x7b\n  \"isPublic\": \x7b\x7b.Args.isPublic\x7d\x7d,\n  \"showEmail\": \x7b\x7b.Args.showEmail\x7d\x7d,\n  \"theme\": \"\x7b\x7b.Args.theme\x7d\x7d\",\n  \"tags\": \x7b\x7b.Args.tags\x7d\x7d,\n  \"settings\": \x7b\x7b toJSON .Args.settings \x7d\x7d,\n  \"notifications\": \x7b\x7b .Args.notifications \x7d\x7d\n\x7d"
  responseBody := "\x7b\n  \"id\": \"\x7b\x7b.Response.Data.id\x7d\x7d\",\n  \"username\": \"\x7b\x7b.Response.Data.username\x7d\x7d\",\n  \"email\": \"\x7b\x7b.Response.Data.email\x7d\x7d\",\n  \"createdAt\": \"\x7b\x7b.Response.Data.createdAt\x7d\x7d\",\n  \"preferences\": \x7b\n    \"isPublic\": \x7b\x7b.Response.Data.preferences.isPublic\x7d\x7d,\n    \"showEmail\": \x7b\x7b.Response.Data.preferences.showEmail\x7d\x7d,\n    \"theme\": \"\x7b\x7b.Response.Data.preferences.theme\x7d\x7d\",\n    \"tags\": \x7b\x7b.Response.Data.preferences.tags\x7d\x7d,\n    \"settings\": \x7b\x7b toJSON .Response.Data.preferences.settings \x7d\x7d,\n    \"notifications\": \x7b\x7b toJSON .Response.Data.preferences.notifications \x7d\x7d\n  \x7d\n\x7d"

/-- `tools[3]`: `update_user_avatar`. -/
def updateUserAvatarTool : ToolDef where
  name := "update_user_avatar"
  method := "POST"
  endpoint := "http://localhost:5236/users/\x7b\x7b.Args.email\x7d\x7d/avatar"
  headers := [("Authorization", "\x7b\x7b.Request.Headers.Authorization\x7d\x7d"),
    ("Cookie", "\x7b\x7b.Config.Cookie\x7d\x7d")]
  args := [
    ⟨"email", "path", true, .str none, ""⟩,
    ⟨"url", "form-data", true, .str none, ""⟩]
  requestBody := none
  responseBody := "\x7b\n  \"message\": \"\x7b\x7b.Response.Data.message\x7d\x7d\",\n  \"avatarUrl\": \"\x7b\x7b.Response.Data.avatarUrl\x7d\x7d\"\n\x7d"

/-- `tools[4]`: `weather` — its `responseBody` contains the malformed
placeholder `\x7b\x7b.Response.Data.info\x7d` (unclosed action). -/
def weatherTool : ToolDef where
  name := "weather"
  method := "GET"
  endpoint := "http://localhost:5236/weather"
  headers := [("Content-Type", "application/json")]
  args := []
  requestBody := none
  responseBody := "\x7b\n  \"status\": \"\x7b\x7b.Response.Data.status\x7d\x7d\",\n  \"count\": \"\x7b\x7b.Response.Data.count\x7d\x7d\",\n  \"info\": \"\x7b\x7b.Response.Data.info\x7d\",\n  \"infocode\": \"\x7b\x7b.Response.Data.infocode\x7d\x7d\",\n  \"lives\": [\n    \x7b\n      \"province\": \"\x7b\x7b.Response.Data.lives.province\x7d\x7d\",\n      \"city\": \"\x7b\x7b.Response.Data.lives.city\x7d\x7d\",\n      \"adcode\": \"\x7b\x7b.Response.Data.lives.adcode\x7d\x7d\",\n      \"weather\": \"\x7b\x7b.Response.Data.lives.weather\x7d\x7d\",\n      \"temperature\": \"\x7b\x7b.Response.Data.lives.temperature\x7d\x7d\",\n      \"winddirection\": \"\x7b\x7b.Response.Data.lives.winddirection\x7d\x7d\",\n      \"windpower\": \"\x7b\x7b.Response.Data.lives.windpower\x7d\x7d\",\n      \"humidity\": \"\x7b\x7b.Response.Data.lives.humidity\x7d\x7d\",\n      \"reporttime\": \"\x7b\x7b.Response.Data.lives.reporttime\x7d\x7d\",\n      \"temperature_float\": \"\x7b\x7b.Response.Data.lives.temperature_float\x7d\x7d\",\n      \"humidity_float\": \"\x7b\x7b.Response.Data.lives.humidity_float\x7d\x7d\"\n    \x7d\n  ]\n\x7d"

/-- The `mock-server` server entry; `authToken` is the load-time-resolved
value of `env "AUTH_TOKEN"`. -/
def mockServer (authToken : String) : ServerCfg where
  name := "mock-server"
  allowedTools := ["register_user", "get_user_by_email",
    "update_user_preferences", "update_user_avatar", "weather"]
  config := [("Cookie", "123"), ("Authorization", "Bearer " ++ authToken)]

/-- The whole source config document. -/
def mockConfig (authToken : String) : Config where
  name := "mock-server"
  tenant := "default"
  routers := [⟨"/mcp/user", "mock-server"⟩]
  servers := [mockServer authToken]
  tools := [registerUserTool, getUserByEmailTool, updateUserPreferencesTool,
    updateUserAvatarTool, weatherTool]

/-! ### Parsing whitespace-formatted object texts

The rendered templates are JSON objects with fixed interleaved whitespace
around serialized values; these lemmas parse any such shape. -/

/-- Only whitespace characters. -/
def wsOnly (cs : List Char) : Bool := cs.all isWsChar

theorem skipWs_cons_ws {c : Char} (h : isWsChar c = true) (cs : List Char) :
    skipWs (c :: cs) = skipWs cs := by
  simp [skipWs, h]

theorem skipWs_wsOnly_append {w : List Char} (hw : wsOnly w = true) (x : List Char) :
    skipWs (w ++ x) = skipWs x := by
  induction w with
  | nil => rfl
  | cons c cs ih =>
    rw [wsOnly, List.all_cons, Bool.and_eq_true] at hw
    rw [List.cons_append, skipWs_cons_ws hw.1, ih hw.2]

theorem isDigitChar_of_ws {c : Char} (h : isWsChar c = true) : isDigitChar c = false := by
  unfold isWsChar at h
  simp only [Bool.or_eq_true, decide_eq_true_eq] at h
  rcases h with ((h | h) | h) | h <;> subst h <;> decide

theorem headIsDigit_wsOnly_append {w x : List Char} (hw : wsOnly w = true)
    (hx : headIsDigit x = false) : headIsDigit (w ++ x) = false := by
  cases w with
  | nil => exact hx
  | cons c cs =>
    rw [wsOnly, List.all_cons, Bool.and_eq_true] at hw
    show isDigitChar c = false
    exact isDigitChar_of_ws hw.1

/-- "This character text parses (through leading whitespace) to exactly
this value, consuming nothing else." -/
def ParsesTo (vchars : List Char) (v : Json) : Prop :=
  ∀ input rest, headIsDigit rest = false → skipWs input = vchars ++ rest →
    parseValW input = some (v, rest)

theorem parsesTo_serVal (v : Json) (hv : Safe v = true) : ParsesTo (serVal v) v :=
  fun input rest h1 h2 => parseValW_serVal v hv input rest h1 h2

/-- One field of a whitespace-formatted object text: whitespace before the
key, the key, whitespace after the colon folded into `vchars`, the value
text and its value, and trailing whitespace before the separator. -/
structure FieldText where
  w0 : List Char
  key : String
  w1 : List Char
  vchars : List Char
  val : Json
  w2 : List Char

/-- Well-formedness of one field: the whitespace slots hold whitespace,
the key is escape-free, the value text starts with a non-whitespace
character and parses to the value. -/
def goodField (f : FieldText) : Prop :=
  wsOnly f.w0 = true ∧ wsOnly f.w1 = true ∧ wsOnly f.w2 = true ∧
  safeStr f.key = true ∧ ParsesTo f.vchars f.val ∧
  ∃ c cs, f.vchars = c :: cs ∧ isWsChar c = false

/-- The character text of an object's fields (everything after the opening
brace), with the closing brace. -/
def fieldsText : List FieldText → List Char
  | [] => ['\x7d']
  | f :: rest =>
    f.w0 ++ '"' :: f.key.data ++ '"' :: ':' :: (f.w1 ++ f.vchars ++ f.w2) ++
      (match rest with
       | [] => ['\x7d']
       | _ => ',' :: fieldsText rest)

/-- The JSON object the fields denote. -/
def fieldsJson : List FieldText → Json
  | [] => .objNil
  | f :: rest => .objCons f.key f.val (fieldsJson rest)

theorem fieldsText_single (f : FieldText) :
    fieldsText [f] =
      f.w0 ++ '"' :: f.key.data ++ '"' :: ':' :: (f.w1 ++ f.vchars ++ f.w2) ++ ['\x7d'] := rfl

theorem fieldsText_cons (f g : FieldText) (rest : List FieldText) :
    fieldsText (f :: g :: rest) =
      f.w0 ++ '"' :: f.key.data ++ '"' :: ':' :: (f.w1 ++ f.vchars ++ f.w2) ++
        ',' :: fieldsText (g :: rest) := rfl

/-- Parsing the fields of a whitespace-formatted object text yields its
denoted object. -/
theorem parseObjRestW_fieldsText (fs : List FieldText) (hne : fs ≠ [])
    (hg : ∀ f ∈ fs, goodField f) : ∀ rest : List Char,
    parseObjRestW (fieldsText fs ++ rest) = some (fieldsJson fs, rest) := by
  induction fs with
  | nil => cases hne rfl
  | cons f fs2 ih =>
    intro rest
    obtain ⟨hw0, hw1, hw2, hkey, hparse, c, cs, hvc, hcws⟩ := hg f (by simp)
    have hvchead : ∀ x : List Char, skipWs (f.w1 ++ (f.vchars ++ x)) = f.vchars ++ x := by
      intro x
      rw [skipWs_wsOnly_append hw1, hvc, List.cons_append, skipWs_cons_not_ws hcws]
    cases fs2 with
    | nil =>
      have he : fieldsText [f] ++ rest =
          f.w0 ++ '"' :: (f.key.data ++ '"' ::
            (':' :: (f.w1 ++ (f.vchars ++ (f.w2 ++ '\x7d' :: rest))))) := by
        rw [fieldsText_single]
        simp
      rw [he]
      have hdig : headIsDigit (f.w2 ++ '\x7d' :: rest) = false :=
        headIsDigit_wsOnly_append hw2 (by rfl)
      have hfin := parseObjRestW_close _ _ _ _ _ _ f.key.data f.val
        (by rw [skipWs_wsOnly_append hw0,
              skipWs_cons_not_ws (c := '"') (by decide)])
        (takeStr_append _ _ (safeStr_no_quote hkey))
        (expectChar_hit (c := ':') (by decide) _)
        (hparse _ _ hdig (hvchead _))
        (by rw [skipWs_wsOnly_append hw2,
              skipWs_cons_not_ws (c := '\x7d') (by decide)])
      simpa using hfin
    | cons g fs3 =>
      have he : fieldsText (f :: g :: fs3) ++ rest =
          f.w0 ++ '"' :: (f.key.data ++ '"' ::
            (':' :: (f.w1 ++ (f.vchars ++
              (f.w2 ++ ',' :: (fieldsText (g :: fs3) ++ rest)))))) := by
        rw [fieldsText_cons]
        simp
      rw [he]
      have hdig : headIsDigit (f.w2 ++ ',' :: (fieldsText (g :: fs3) ++ rest)) = false :=
        headIsDigit_wsOnly_append hw2 (by rfl)
      have hrec := ih (by simp) (fun x hx => hg x (by simp [hx])) rest
      have hfin := parseObjRestW_comma _ _ _ _ _ _ _ f.key.data f.val (fieldsJson (g :: fs3))
        (by rw [skipWs_wsOnly_append hw0,
              skipWs_cons_not_ws (c := '"') (by decide)])
        (takeStr_append _ _ (safeStr_no_quote hkey))
        (expectChar_hit (c := ':') (by decide) _)
        (hparse _ _ hdig (hvchead _))
        (by rw [skipWs_wsOnly_append hw2,
              skipWs_cons_not_ws (c := ',') (by decide)])
        hrec
      simpa using hfin

/-- A whitespace-formatted object text parses to its denoted object. -/
theorem parsesTo_objText (fs : List FieldText) (hne : fs ≠ [])
    (hg : ∀ f ∈ fs, goodField f) :
    ParsesTo ('\x7b' :: fieldsText fs) (fieldsJson fs) := by
  intro input rest hrest hin
  match fs, hne with
  | f :: fs2, _ =>
    obtain ⟨hw0, -, -, -, -, -⟩ := hg f (by simp)
    have hin2 : skipWs input = '\x7b' :: (fieldsText (f :: fs2) ++ rest) := by
      rw [hin]; rfl
    have htail : ∃ tail, fieldsText (f :: fs2) = f.w0 ++ '"' :: tail := by
      cases fs2 with
      | nil =>
        exact ⟨f.key.data ++ '"' :: ':' :: (f.w1 ++ f.vchars ++ f.w2) ++ ['\x7d'],
          by rw [fieldsText_single]; simp⟩
      | cons g fs3 =>
        exact ⟨f.key.data ++ '"' :: ':' :: (f.w1 ++ f.vchars ++ f.w2) ++
            ',' :: fieldsText (g :: fs3),
          by rw [fieldsText_cons]; simp⟩
    have hec : expectChar '\x7d' (fieldsText (f :: fs2) ++ rest) = none := by
      obtain ⟨tail, ht⟩ := htail
      have hsw : skipWs (fieldsText (f :: fs2) ++ rest) = '"' :: (tail ++ rest) := by
        rw [ht, List.append_assoc, skipWs_wsOnly_append hw0, List.cons_append,
          skipWs_cons_not_ws (c := '"') (by decide)]
      unfold expectChar
      rw [hsw]
      simp
    exact parseValW_obj input (fieldsText (f :: fs2) ++ rest) rest _ hin2 hec
      (parseObjRestW_fieldsText (f :: fs2) (by simp)
        (fun x hx => hg x hx) rest)

/-! ### Claim theorems -/

/-- C4 helper: one reload of an unchanged, valid config is the identity on
the store. -/
theorem applyReload_self (cfg : Config) (hv : validateConfig cfg = .ok ()) :
    applyReload (some cfg) (.ok cfg) = some cfg := by
  simp [applyReload, hv]

/-- **C3** — Atomicity of reload on error: if the storage collaborator's
`Load` fails, or validation of the loaded config fails, the store keeps
the previous Config and every `Resolve` result is unchanged; moreover a
config in which some `allowedTools` entry has no matching Tool definition
always fails validation with `ConfigValidationError`. -/
theorem reload_failure_preserves_store (store : Option Config) (lr : LoadResult)
    (hfail : lr = .loadError ∨ ∃ cfg e, lr = .ok cfg ∧ validateConfig cfg = .error e) :
    (applyReload store lr = store ∧
      ∀ pfx tn, storeResolve (applyReload store lr) pfx tn = storeResolve store pfx tn) ∧
    ∀ cfg : Config,
      (∃ s ∈ cfg.servers, ∃ tn ∈ s.allowedTools, ∀ t ∈ cfg.tools, t.name ≠ tn) →
      validateConfig cfg = .error .configValidationError := by
  constructor
  · have hstore : applyReload store lr = store := by
      rcases hfail with h | ⟨cfg, e, hlr, hbad⟩
      · subst h; rfl
      · subst hlr; simp [applyReload, hbad]
    exact ⟨hstore, fun pfx tn => by rw [hstore]⟩
  · intro cfg ⟨s, hs, tn, htn, hbad⟩
    unfold validateConfig
    split
    · rfl
    · next hrouters =>
      have h2 : cfg.servers.all
          (fun s => s.allowedTools.all (fun tn => cfg.tools.any (fun t => t.name = tn)))
          = false := by
        rw [Bool.eq_false_iff]
        intro hall
        rw [List.all_eq_true] at hall
        have h3 := hall s hs
        rw [List.all_eq_true] at h3
        have h4 := h3 tn htn
        rw [List.any_eq_true] at h4
        obtain ⟨t, ht, hname⟩ := h4
        exact hbad t ht (by simpa using hname)
      simp [h2]

/-- **C4** — Reload idempotence: any number of reload triggers against an
unchanged stored config leaves the active snapshot equal, and every
`Resolve` result the same. -/
theorem reload_idempotent (cfg : Config) (hv : validateConfig cfg = .ok ()) (n : Nat) :
    applyReloadN n (some cfg) (.ok cfg) = some cfg ∧
    ∀ pfx tn, storeResolve (applyReloadN n (some cfg) (.ok cfg)) pfx tn =
      storeResolve (some cfg) pfx tn := by
  have h : applyReloadN n (some cfg) (.ok cfg) = some cfg := by
    induction n with
    | zero => rfl
    | succ m ih =>
      show applyReloadN m (applyReload (some cfg) (.ok cfg)) (.ok cfg) = some cfg
      rw [applyReload_self cfg hv]
      exact ih
  exact ⟨h, fun pfx tn => by rw [h]⟩

set_option maxRecDepth 40000 in
/-- **C7** — The source config's `weather` tool template contains an
unclosed placeholder, so the whole config is rejected at load time with
`TemplateError` (and a reload offering it leaves any store unchanged),
for every load-time-resolved value of the `AUTH_TOKEN` environment
variable. -/
theorem weather_template_rejected (authToken : String) :
    parseTemplate weatherTool.responseBody = none ∧
    validateConfig (mockConfig authToken) = .error .templateError ∧
    ∀ store, applyReload store (.ok (mockConfig authToken)) = store := by
  refine ⟨rfl, rfl, fun store => ?_⟩
  have h : validateConfig (mockConfig authToken) = .error .templateError := rfl
  simp only [applyReload, h]

/-- **C1** — Routing resolution: for a valid Config, `Resolve` returns the
server bound to the prefix together with the tool definition of that name
exactly when the tool name is in the server's effective tool set (the
intersection of its `allowedTools` and the globally-defined tools); in
every other case it returns `NotFound` (`none`). -/
theorem resolve_iff_effective (cfg : Config) (hv : validateConfig cfg = .ok ())
    (pfx toolName : String) :
    match resolve cfg pfx toolName with
    | some (s, t) => serverBound cfg pfx = some s ∧ toolName ∈ effectiveTools cfg s ∧
        t ∈ cfg.tools ∧ t.name = toolName
    | none => ¬ ∃ s, serverBound cfg pfx = some s ∧ toolName ∈ effectiveTools cfg s := by
  cases hsb : serverBound cfg pfx with
  | none =>
    have hres : resolve cfg pfx toolName = none := by
      unfold resolve; rw [hsb]
    rw [hres]
    rintro ⟨s2, hsb2, -⟩
    cases hsb2
  | some s =>
    by_cases hct : s.allowedTools.contains toolName = true
    · cases hf : cfg.tools.find? (fun t => t.name = toolName) with
      | some t =>
        have hmem2 : toolName ∈ s.allowedTools := by simpa using hct
        have hres : resolve cfg pfx toolName = some (s, t) := by
          unfold resolve; rw [hsb]; simp [hmem2, hf]
        rw [hres]
        have hmem := List.mem_of_find?_eq_some hf
        have hname : t.name = toolName := by
          have h2 := List.find?_some hf
          simpa using h2
        have heff : toolName ∈ effectiveTools cfg s := by
          rw [effectiveTools, List.mem_filter]
          refine ⟨by simpa using hct, ?_⟩
          rw [List.any_eq_true]
          exact ⟨t, hmem, by simpa using hname⟩
        exact ⟨rfl, heff, hmem, hname⟩
      | none =>
        have hmem2 : toolName ∈ s.allowedTools := by simpa using hct
        have hres : resolve cfg pfx toolName = none := by
          unfold resolve; rw [hsb]; simp [hmem2, hf]
        rw [hres]
        rintro ⟨s2, hsb2, heff⟩
        injection hsb2 with hs2
        subst hs2
        rw [effectiveTools, List.mem_filter, List.any_eq_true] at heff
        obtain ⟨-, t, ht, hname⟩ := heff
        rw [List.find?_eq_none] at hf
        exact hf t ht (by simpa using hname)
    · have hnm : toolName ∉ s.allowedTools := fun hm => hct (by simpa using hm)
      have hres : resolve cfg pfx toolName = none := by
        unfold resolve; rw [hsb]; simp [hnm]
      rw [hres]
      rintro ⟨s2, hsb2, heff⟩
      injection hsb2 with hs2
      subst hs2
      rw [effectiveTools, List.mem_filter] at heff
      exact hct (by simpa using heff.1)

deriving instance DecidableEq for Except

/-- Is an `Except` a success? -/
def exceptIsOk {ε α : Type} : Except ε α → Bool
  | .ok _ => true
  | .error _ => false

/-- If any declared argument fails to bind, `Bind` fails. -/
theorem bindArgs_error_of_failing (inv : Invocation) (args : List ArgDef) (a : ArgDef)
    (ha : a ∈ args) (e : GwError) (he : bindArg inv a = .error e) :
    ∃ e2, bindArgs inv args = .error e2 := by
  induction args with
  | nil => cases ha
  | cons b rest ih =>
    cases hb : bindArg inv b with
    | error e3 => exact ⟨e3, by unfold bindArgs; rw [hb]⟩
    | ok v =>
      rcases List.mem_cons.mp ha with h | h
      · subst h; rw [he] at hb; cases hb
      · obtain ⟨e2, h2⟩ := ih h
        refine ⟨e2, ?_⟩
        unfold bindArgs
        rw [hb, h2]

/-- `Bind` processes arguments in declaration order and fails fast: the
first failing argument's error is the reported one. -/
theorem bindArgs_first_error (inv : Invocation) (pre : List ArgDef) (a : ArgDef)
    (post : List ArgDef) (hpre : ∀ b ∈ pre, exceptIsOk (bindArg inv b) = true)
    (e : GwError) (he : bindArg inv a = .error e) :
    bindArgs inv (pre ++ a :: post) = .error e := by
  induction pre with
  | nil =>
    simp only [List.nil_append]
    unfold bindArgs
    rw [he]
  | cons b rest ih =>
    have hb := hpre b (by simp)
    cases hbv : bindArg inv b with
    | error e3 => rw [hbv] at hb; simp [exceptIsOk] at hb
    | ok v =>
      have ih2 := ih (fun x hx => hpre x (by simp [hx]))
      simp only [List.cons_append]
      unfold bindArgs
      rw [hbv, ih2]

/-- Chain membership of an array value. -/
def elemOfChain (x : Json) : Json → Bool
  | .arrCons h t => if h = x then true else elemOfChain x t
  | _ => false

theorem allChainItems_false_of_elem (f : Json → Bool) (x v : Json)
    (hx : elemOfChain x v = true) (hf : f x = false) :
    allChainItems f v = false := by
  induction v with
  | arrCons h t _ iht =>
    unfold elemOfChain at hx
    unfold allChainItems
    split at hx
    · next heq => subst heq; rw [hf]; rfl
    · rw [iht hx]
      exact Bool.and_false _
  | _ => simp [elemOfChain] at hx

/-- **C6 counterexample** — an invocation of `update_user_preferences` in
which the required `theme` argument is absent but an earlier argument
(`isPublic`) carries an uncoercible value: `Bind` reports
`InvalidArgument`, not `MissingArgument`, although a required argument is
absent. -/
theorem bind_missing_counterexample :
    (∃ a ∈ updateUserPreferencesTool.args, a.required = true ∧
      rawValueAt ⟨[("email", "a@x.com")], [], [("isPublic", .str "maybe")], [], []⟩ a
        = none) ∧
    bindArgs ⟨[("email", "a@x.com")], [], [("isPublic", .str "maybe")], [], []⟩
      updateUserPreferencesTool.args = .error .invalidArgument := by
  decide

/-- **C6** (amended) — Whenever a declared required argument is absent
from its declared position, `Bind` fails and the pipeline terminates in
`Failed` with no upstream call dispatched; the error is `MissingArgument`
when that argument is the first failing one in declaration order. -/
theorem bind_missing_required (t : ToolDef) (serverConfig : List (String × String))
    (inv : Invocation) (upstream : String → Nat × String) (a : ArgDef)
    (ha : a ∈ t.args) (hreq : a.required = true) (habs : rawValueAt inv a = none) :
    (∃ e, bindArgs inv t.args = .error e) ∧
    (runPipeline t serverConfig inv upstream).2 = [] ∧
    (∃ e, (runPipeline t serverConfig inv upstream).1 = .failed e) ∧
    (∀ pre post, t.args = pre ++ a :: post →
      (∀ b ∈ pre, exceptIsOk (bindArg inv b) = true) →
      bindArgs inv t.args = .error .missingArgument) := by
  have he : bindArg inv a = .error .missingArgument := by
    unfold bindArg
    rw [habs, hreq]
    rfl
  obtain ⟨e2, hbe⟩ := bindArgs_error_of_failing inv t.args a ha _ he
  have hpipe : runPipeline t serverConfig inv upstream = (.failed e2, []) := by
    unfold runPipeline
    rw [hbe]
  refine ⟨⟨e2, hbe⟩, by rw [hpipe], ⟨e2, by rw [hpipe]⟩, ?_⟩
  intro pre post heq hpre
  rw [heq]
  exact bindArgs_first_error inv pre a post hpre _ he

/-- **C5 counterexample** — an invocation of `update_user_preferences`
whose `tags` value contains the out-of-enum string "invalid-role" but
whose earlier required `email` argument is absent: `Bind` reports
`MissingArgument`, not `InvalidArgument`. -/
theorem bind_enum_counterexample :
    (∃ a ∈ updateUserPreferencesTool.args, a.name = "tags" ∧
      a.schema = .arr (.str (some ["developer", "designer", "manager", "tester"])) ∧
      rawValueAt ⟨[], [], [("tags", .arrCons (.str "invalid-role") .arrNil)], [], []⟩ a
        = some (.arrCons (.str "invalid-role") .arrNil)) ∧
    (["developer", "designer", "manager", "tester"] : List String).contains
      "invalid-role" = false ∧
    bindArgs ⟨[], [], [("tags", .arrCons (.str "invalid-role") .arrNil)], [], []⟩
      updateUserPreferencesTool.args = .error .missingArgument := by
  decide

/-- **C5** (amended) — An argument of array type with enum-constrained
string items is validated recursively: a value containing a string outside
the enum makes that argument's binding fail with `InvalidArgument`; `Bind`
as a whole fails, no upstream call is dispatched, and the reported error
is `InvalidArgument` when the offending argument is the first failing one
in declaration order. -/
theorem bind_enum_violation (t : ToolDef) (serverConfig : List (String × String))
    (inv : Invocation) (upstream : String → Nat × String) (a : ArgDef)
    (es : List String) (ha : a ∈ t.args) (hsch : a.schema = .arr (.str (some es)))
    (v : Json) (hv : rawValueAt inv a = some v) (s : String)
    (hmem : elemOfChain (.str s) v = true) (hnot : es.contains s = false) :
    bindArg inv a = .error .invalidArgument ∧
    (∃ e, bindArgs inv t.args = .error e) ∧
    (runPipeline t serverConfig inv upstream).2 = [] ∧
    (∃ e, (runPipeline t serverConfig inv upstream).1 = .failed e) ∧
    (∀ pre post, t.args = pre ++ a :: post →
      (∀ b ∈ pre, exceptIsOk (bindArg inv b) = true) →
      bindArgs inv t.args = .error .invalidArgument) := by
  have hleaf : validateValue (.str (some es)) (.str s) = false := by
    unfold validateValue
    exact hnot
  have hval : validateValue (.arr (.str (some es))) v = false := by
    unfold validateValue
    exact allChainItems_false_of_elem _ _ v hmem hleaf
  have he : bindArg inv a = .error .invalidArgument := by
    unfold bindArg
    rw [hv, hsch]
    simp [coerceValue, hval]
  obtain ⟨e2, hbe⟩ := bindArgs_error_of_failing inv t.args a ha _ he
  have hpipe : runPipeline t serverConfig inv upstream = (.failed e2, []) := by
    unfold runPipeline
    rw [hbe]
  refine ⟨he, ⟨e2, hbe⟩, by rw [hpipe], ⟨e2, by rw [hpipe]⟩, ?_⟩
  intro pre post heq hpre
  rw [heq]
  exact bindArgs_first_error inv pre a post hpre _ he

/-- A minimal valid config used to witness the routing and reload
theorems. -/
def witnessConfig : Config :=
  ⟨"w", "t", [⟨"/p", "s1"⟩], [⟨"s1", ["tool1"], []⟩],
    [⟨"tool1", "GET", "http://localhost", [], [], none, ""⟩]⟩

/-- A stored user used to witness the backend theorems. -/
def witnessUser : User := ⟨"1", "alice", "a@x.com", "2024-01-01T00:00:00Z", zeroPreferences⟩

theorem resolve_iff_effective_witness :
    validateConfig witnessConfig = .ok () ∧
    (match resolve witnessConfig "/p" "tool1" with
     | some (s, t) => serverBound witnessConfig "/p" = some s ∧
         "tool1" ∈ effectiveTools witnessConfig s ∧
         t ∈ witnessConfig.tools ∧ t.name = "tool1"
     | none => ¬ ∃ s, serverBound witnessConfig "/p" = some s ∧
         "tool1" ∈ effectiveTools witnessConfig s) :=
  ⟨by decide, resolve_iff_effective witnessConfig (by decide) "/p" "tool1"⟩

theorem reload_failure_preserves_store_witness :
    ((.loadError : LoadResult) = .loadError ∨
      ∃ cfg e, (.loadError : LoadResult) = .ok cfg ∧ validateConfig cfg = .error e) ∧
    ((applyReload (some witnessConfig) .loadError = some witnessConfig ∧
      ∀ pfx tn, storeResolve (applyReload (some witnessConfig) .loadError) pfx tn =
        storeResolve (some witnessConfig) pfx tn) ∧
    ∀ cfg : Config,
      (∃ s ∈ cfg.servers, ∃ tn ∈ s.allowedTools, ∀ t ∈ cfg.tools, t.name ≠ tn) →
      validateConfig cfg = .error .configValidationError) :=
  ⟨Or.inl rfl, reload_failure_preserves_store (some witnessConfig) .loadError (Or.inl rfl)⟩

theorem reload_idempotent_witness :
    validateConfig witnessConfig = .ok () ∧
    (applyReloadN 2 (some witnessConfig) (.ok witnessConfig) = some witnessConfig ∧
    ∀ pfx tn, storeResolve (applyReloadN 2 (some witnessConfig) (.ok witnessConfig)) pfx tn =
      storeResolve (some witnessConfig) pfx tn) :=
  ⟨by decide, reload_idempotent witnessConfig (by decide) 2⟩

theorem bind_missing_required_witness :
    ((⟨"isPublic", "body", true, .boolean, "false"⟩ : ArgDef) ∈
        updateUserPreferencesTool.args ∧
     (⟨"isPublic", "body", true, .boolean, "false"⟩ : ArgDef).required = true ∧
     rawValueAt ⟨[("email", "a@x.com")], [], [], [], []⟩
       ⟨"isPublic", "body", true, .boolean, "false"⟩ = none) ∧
    ((∃ e, bindArgs ⟨[("email", "a@x.com")], [], [], [], []⟩
        updateUserPreferencesTool.args = .error e) ∧
    (runPipeline updateUserPreferencesTool [] ⟨[("email", "a@x.com")], [], [], [], []⟩
        (fun _ => (200, ""))).2 = [] ∧
    (∃ e, (runPipeline updateUserPreferencesTool [] ⟨[("email", "a@x.com")], [], [], [], []⟩
        (fun _ => (200, ""))).1 = .failed e) ∧
    (∀ pre post, updateUserPreferencesTool.args =
        pre ++ (⟨"isPublic", "body", true, .boolean, "false"⟩ : ArgDef) :: post →
      (∀ b ∈ pre, exceptIsOk (bindArg ⟨[("email", "a@x.com")], [], [], [], []⟩ b) = true) →
      bindArgs ⟨[("email", "a@x.com")], [], [], [], []⟩ updateUserPreferencesTool.args =
        .error .missingArgument)) :=
  ⟨⟨by decide, by decide, by decide⟩,
    bind_missing_required updateUserPreferencesTool [] ⟨[("email", "a@x.com")], [], [], [], []⟩
      (fun _ => (200, "")) ⟨"isPublic", "body", true, .boolean, "false"⟩
      (by decide) (by decide) (by decide)⟩

theorem bind_enum_violation_witness :
    ((⟨"tags", "body", true, .arr tagsItemSchema, "[]"⟩ : ArgDef) ∈
        updateUserPreferencesTool.args ∧
     (⟨"tags", "body", true, .arr tagsItemSchema, "[]"⟩ : ArgDef).schema =
       .arr (.str (some ["developer", "designer", "manager", "tester"])) ∧
     rawValueAt
       ⟨[("email", "a@x.com")], [],
         [("isPublic", .bool true), ("showEmail", .bool false), ("theme", .str "dark"),
          ("tags", .arrCons (.str "developer")
            (.arrCons (.str "tester") (.arrCons (.str "invalid-role") .arrNil)))], [], []⟩
       ⟨"tags", "body", true, .arr tagsItemSchema, "[]"⟩ =
       some (.arrCons (.str "developer")
         (.arrCons (.str "tester") (.arrCons (.str "invalid-role") .arrNil))) ∧
     elemOfChain (.str "invalid-role")
       (.arrCons (.str "developer")
         (.arrCons (.str "tester") (.arrCons (.str "invalid-role") .arrNil))) = true ∧
     (["developer", "designer", "manager", "tester"] : List String).contains
       "invalid-role" = false) ∧
    (bindArg
       ⟨[("email", "a@x.com")], [],
         [("isPublic", .bool true), ("showEmail", .bool false), ("theme", .str "dark"),
          ("tags", .arrCons (.str "developer")
            (.arrCons (.str "tester") (.arrCons (.str "invalid-role") .arrNil)))], [], []⟩
       ⟨"tags", "body", true, .arr tagsItemSchema, "[]"⟩ = .error .invalidArgument ∧
    (∃ e, bindArgs
       ⟨[("email", "a@x.com")], [],
         [("isPublic", .bool true), ("showEmail", .bool false), ("theme", .str "dark"),
          ("tags", .arrCons (.str "developer")
            (.arrCons (.str "tester") (.arrCons (.str "invalid-role") .arrNil)))], [], []⟩
       updateUserPreferencesTool.args = .error e) ∧
    (runPipeline updateUserPreferencesTool []
       ⟨[("email", "a@x.com")], [],
         [("isPublic", .bool true), ("showEmail", .bool false), ("theme", .str "dark"),
          ("tags", .arrCons (.str "developer")
            (.arrCons (.str "tester") (.arrCons (.str "invalid-role") .arrNil)))], [], []⟩
       (fun _ => (200, ""))).2 = [] ∧
    (∃ e, (runPipeline updateUserPreferencesTool []
       ⟨[("email", "a@x.com")], [],
         [("isPublic", .bool true), ("showEmail", .bool false), ("theme", .str "dark"),
          ("tags", .arrCons (.str "developer")
            (.arrCons (.str "tester") (.arrCons (.str "invalid-role") .arrNil)))], [], []⟩
       (fun _ => (200, ""))).1 = .failed e) ∧
    (∀ pre post, updateUserPreferencesTool.args =
        pre ++ (⟨"tags", "body", true, .arr tagsItemSchema, "[]"⟩ : ArgDef) :: post →
      (∀ b ∈ pre, exceptIsOk (bindArg
        ⟨[("email", "a@x.com")], [],
          [("isPublic", .bool true), ("showEmail", .bool false), ("theme", .str "dark"),
           ("tags", .arrCons (.str "developer")
             (.arrCons (.str "tester") (.arrCons (.str "invalid-role") .arrNil)))], [], []⟩ b)
        = true) →
      bindArgs
        ⟨[("email", "a@x.com")], [],
          [("isPublic", .bool true), ("showEmail", .bool false), ("theme", .str "dark"),
           ("tags", .arrCons (.str "developer")
             (.arrCons (.str "tester") (.arrCons (.str "invalid-role") .arrNil)))], [], []⟩
        updateUserPreferencesTool.args = .error .invalidArgument)) :=
  ⟨⟨by decide, by decide, by decide, by decide, by decide⟩,
    bind_enum_violation updateUserPreferencesTool []
      ⟨[("email", "a@x.com")], [],
        [("isPublic", .bool true), ("showEmail", .bool false), ("theme", .str "dark"),
         ("tags", .arrCons (.str "developer")
           (.arrCons (.str "tester") (.arrCons (.str "invalid-role") .arrNil)))], [], []⟩
      (fun _ => (200, "")) ⟨"tags", "body", true, .arr tagsItemSchema, "[]"⟩
      ["developer", "designer", "manager", "tester"]
      (by decide) (by decide)
      (.arrCons (.str "developer")
        (.arrCons (.str "tester") (.arrCons (.str "invalid-role") .arrNil)))
      (by decide) "invalid-role" (by decide) (by decide)⟩

/-! ### C2: the update_user_preferences round-trip

Helper development: interpolation shapes, decoder/marshal inverses on the
backend's structures, `Safe`-ness of marshalled users, schema validation of
the bound argument values, and the concrete field decomposition of both
rendered templates. -/

/-- Bare interpolation of a marshalled list is its JSON serialization. -/
theorem interpVal_listToArr (l : List Json) :
    interpVal (listToArr l) = serVal (listToArr l) := by
  cases l <;> rfl

/-- Bare interpolation of a boolean is its JSON serialization. -/
theorem interpVal_bool (b : Bool) : interpVal (.bool b) = serVal (.bool b) := rfl

/-- Interpolation of a string value inserts its raw characters. -/
theorem interpVal_str (s : String) : interpVal (.str s) = s.data := rfl

/-- ASCII folding of each JSON tag name in play, evaluated once so that
`simp` can settle the key-matching conditions by literal comparison. -/
theorem lowerStr_isPublic : lowerStr "isPublic" = "ispublic" := by decide

theorem lowerStr_showEmail : lowerStr "showEmail" = "showemail" := by decide

theorem lowerStr_theme : lowerStr "theme" = "theme" := by decide

theorem lowerStr_tags : lowerStr "tags" = "tags" := by decide

theorem lowerStr_settings : lowerStr "settings" = "settings" := by decide

theorem lowerStr_notifications : lowerStr "notifications" = "notifications" := by
  decide

theorem lowerStr_type : lowerStr "type" = "type" := by decide

theorem lowerStr_channel : lowerStr "channel" = "channel" := by decide

theorem lowerStr_enabled : lowerStr "enabled" = "enabled" := by decide

theorem lowerStr_frequency : lowerStr "frequency" = "frequency" := by decide

/-- Decoding a marshalled `[]string` recovers the list, over any stale
backing. -/
theorem decodeStrListInto_listToArr (l : List String) : ∀ stale : List String,
    decodeStrListInto stale (listToArr (l.map .str)) = some l := by
  induction l with
  | nil => intro stale; rfl
  | cons s rest ih => intro stale; simp [listToArr, decodeStrListInto, ih]

/-- Decoding a marshalled `Notification` recovers the struct, into any
current slot value. -/
theorem decodeNotificationInto_notifToJson (cur n : Notification) :
    decodeNotificationInto cur (notifToJson n) = some n := by
  cases n
  simp [decodeNotificationInto, notifToJson, isObjChain, matchingValues,
    foldStrF, foldBoolF, foldNumF, lowerStr_type, lowerStr_channel,
    lowerStr_enabled, lowerStr_frequency]

/-- Decoding a marshalled `[]Notification` recovers the list, over any
stale backing. -/
theorem decodeNotifListInto_listToArr (ns : List Notification) :
    ∀ stale : List Notification,
    decodeNotifListInto stale (listToArr (ns.map notifToJson)) = some ns := by
  induction ns with
  | nil => intro stale; rfl
  | cons n rest ih =>
    intro stale
    simp [listToArr, decodeNotifListInto, decodeNotificationInto_notifToJson, ih]

/-- A single `tags` entry holding a marshalled string list decodes to it. -/
theorem foldTagsF_arr (l : List String) :
    foldTagsF none [listToArr (l.map .str)] = some (some l) := by
  cases l <;>
    simp [listToArr, foldTagsF, decodeStrListInto, decodeStrListInto_listToArr]

/-- A single `settings` entry holding a canonical JSON object decodes
to it. -/
theorem foldSettingsF_obj (v : Json) (hv : isObjChain v = true)
    (hnorm : goNorm v = v) : foldSettingsF none [v] = some (some v) := by
  cases v <;> simp_all [foldSettingsF, isObjChain, objAppend]

/-- A single `notifications` entry holding a marshalled list decodes
to it. -/
theorem foldNotifsF_arr (ns : List Notification) :
    foldNotifsF none [listToArr (ns.map notifToJson)] = some (some ns) := by
  cases ns <;>
    simp [listToArr, foldNotifsF, decodeNotifListInto,
      decodeNotificationInto_notifToJson, decodeNotifListInto_listToArr]

/-- Binding the preferences struct out of an object body, given the
sequential decode of each field's matching entries. -/
theorem decodePreferences_of_fields (body : Json) (p se : Bool) (th : String)
    (tg : Option (List String)) (st : Option Json)
    (nf : Option (List Notification))
    (hsp : isObjChain body = true)
    (h1 : foldBoolF false (matchingValues body "isPublic") = some p)
    (h2 : foldBoolF false (matchingValues body "showEmail") = some se)
    (h3 : foldStrF "" (matchingValues body "theme") = some th)
    (h4 : foldTagsF none (matchingValues body "tags") = some tg)
    (h5 : foldSettingsF none (matchingValues body "settings") = some st)
    (h6 : foldNotifsF none (matchingValues body "notifications") = some nf) :
    decodePreferences body = some ⟨p, se, th, tg, st, nf⟩ := by
  unfold decodePreferences decodePreferencesInto bindPrefsFields
  cases body <;> simp_all [isObjChain, zeroPreferences]

/-- A marshalled list is an array chain. -/
theorem isArrChain_listToArr (l : List Json) : isArrChain (listToArr l) = true := by
  cases l <;> simp [listToArr, isArrChain]

/-- A marshalled list of `Safe` values is `Safe`. -/
theorem Safe_listToArr (l : List Json) (h : ∀ x ∈ l, Safe x = true) :
    Safe (listToArr l) = true := by
  induction l with
  | nil => rfl
  | cons x xs ih =>
    simp only [listToArr, Safe, Bool.and_eq_true]
    exact ⟨⟨h x (by simp), ih (fun y hy => h y (by simp [hy]))⟩,
      isArrChain_listToArr xs⟩

/-- A marshalled list of escape-free strings is `Safe`. -/
theorem Safe_tagsArr (l : List String) (h : ∀ s ∈ l, safeStr s = true) :
    Safe (listToArr (l.map .str)) = true := by
  refine Safe_listToArr _ ?_
  intro x hx
  simp only [List.mem_map] at hx
  obtain ⟨s, hs, rfl⟩ := hx
  simpa [Safe] using h s hs

/-- A marshalled notification with escape-free strings is `Safe`. -/
theorem Safe_notifToJson (n : Notification) (h1 : safeStr n.ntype = true)
    (h2 : safeStr n.channel = true) : Safe (notifToJson n) = true := by
  simp [notifToJson, Safe, isObjChain, h1, h2]
  decide

/-- A marshalled notification list with escape-free strings is `Safe`. -/
theorem Safe_notifsArr (ns : List Notification)
    (h : ∀ n ∈ ns, safeStr n.ntype = true ∧ safeStr n.channel = true) :
    Safe (listToArr (ns.map notifToJson)) = true := by
  refine Safe_listToArr _ ?_
  intro x hx
  simp only [List.mem_map] at hx
  obtain ⟨n, hn, rfl⟩ := hx
  exact Safe_notifToJson n (h n hn).1 (h n hn).2

/-- `validateValue` on an array schema is element-wise validation. -/
theorem validateValue_arr (sch : TypeSchema) (v : Json) :
    validateValue (.arr sch) v = allChainItems (validateValue sch) v := rfl

/-- A marshalled list whose elements all validate validates as an array. -/
theorem allChainItems_listToArr (f : Json → Bool) (l : List Json)
    (h : ∀ x ∈ l, f x = true) : allChainItems f (listToArr l) = true := by
  induction l with
  | nil => rfl
  | cons x xs ih =>
    simp only [listToArr, allChainItems, Bool.and_eq_true]
    exact ⟨h x (by simp), ih (fun y hy => h y (by simp [hy]))⟩

/-- The declared `tags` schema accepts a marshalled list of enum members. -/
theorem validateValue_tagsArr (l : List String)
    (h : ∀ s ∈ l, s ∈ ["developer", "designer", "manager", "tester"]) :
    validateValue (.arr tagsItemSchema) (listToArr (l.map .str)) = true := by
  rw [validateValue_arr]
  refine allChainItems_listToArr _ _ ?_
  intro x hx
  simp only [List.mem_map] at hx
  obtain ⟨s, hs, rfl⟩ := hx
  have hmem := h s hs
  show validateValue tagsItemSchema (.str s) = true
  simpa [tagsItemSchema, validateValue] using hmem

/-- The declared `notifications` item schema accepts a marshalled
notification. -/
theorem validateValue_notifToJson (n : Notification) :
    validateValue notificationItemSchema (notifToJson n) = true := by
  simp [validateValue, notificationItemSchema, notifToJson, jlookup, isObjChain]

/-- The declared `notifications` schema accepts a marshalled list. -/
theorem validateValue_notifsArr (ns : List Notification) :
    validateValue (.arr notificationItemSchema) (listToArr (ns.map notifToJson))
      = true := by
  rw [validateValue_arr]
  refine allChainItems_listToArr _ _ ?_
  intro x hx
  simp only [List.mem_map] at hx
  obtain ⟨n, hn, rfl⟩ := hx
  exact validateValue_notifToJson n

/-- `validateValue` on the object schema is the object-chain test. -/
theorem validateValue_propNil (v : Json) :
    validateValue .propNil v = isObjChain v := rfl

/-- From a full `parseValW` run with nothing but whitespace left over,
conclude a `parseJson` result. -/
theorem parseJson_of_parseValW (s : String) (v : Json) (r : List Char)
    (h : parseValW s.data = some (v, r)) (hr : skipWs r = []) :
    parseJson s = some v := by
  unfold parseJson
  unfold parseValW at h
  cases hp : parseVal s.data with
  | none => rw [hp] at h; exact absurd h (by simp)
  | some p =>
    rw [hp] at h
    obtain ⟨v2, r2, hlt⟩ := p
    simp only [Option.map] at h
    injection h with h
    injection h with hv2 hr2
    subst hv2
    subst hr2
    simp [hr]

/-- An object text whose fields are good is a good field value at any
whitespace padding. -/
theorem goodField_objText (w0 w1 w2 : List Char) (key : String)
    (fs : List FieldText) (hne : fs ≠ []) (hg : ∀ f ∈ fs, goodField f)
    (hw0 : wsOnly w0 = true) (hw1 : wsOnly w1 = true) (hw2 : wsOnly w2 = true)
    (hk : safeStr key = true) :
    goodField ⟨w0, key, w1, '\x7b' :: fieldsText fs, fieldsJson fs, w2⟩ :=
  ⟨hw0, hw1, hw2, hk, parsesTo_objText fs hne hg, '\x7b', fieldsText fs, rfl, rfl⟩

/-- A serialized `Safe` value is a good field value at any whitespace
padding. -/
theorem goodField_serVal (w0 w1 w2 : List Char) (key : String) (v : Json)
    (hw0 : wsOnly w0 = true) (hw1 : wsOnly w1 = true) (hw2 : wsOnly w2 = true)
    (hk : safeStr key = true) (hv : Safe v = true) :
    goodField ⟨w0, key, w1, serVal v, v, w2⟩ := by
  refine ⟨hw0, hw1, hw2, hk, parsesTo_serVal v hv, ?_⟩
  obtain ⟨c, cs, hc, hws, -⟩ := serVal_head_cases v
  exact ⟨c, cs, hc, hws⟩

/-- The parsed parts of the `update_user_preferences` request template. -/
def updatePrefsReqParts : List TplPart := [
  .lit "\x7b\n  \"isPublic\": ".data,
  .var ["Args", "isPublic"] false,
  .lit ",\n  \"showEmail\": ".data,
  .var ["Args", "showEmail"] false,
  .lit ",\n  \"theme\": \"".data,
  .var ["Args", "theme"] false,
  .lit "\",\n  \"tags\": ".data,
  .var ["Args", "tags"] false,
  .lit ",\n  \"settings\": ".data,
  .var ["Args", "settings"] true,
  .lit ",\n  \"notifications\": ".data,
  .var ["Args", "notifications"] false,
  .lit "\n\x7d".data]

/-- The parsed parts of the `update_user_preferences` response template. -/
def updatePrefsRespParts : List TplPart := [
  .lit "\x7b\n  \"id\": \"".data,
  .var ["Response", "Data", "id"] false,
  .lit "\",\n  \"username\": \"".data,
  .var ["Response", "Data", "username"] false,
  .lit "\",\n  \"email\": \"".data,
  .var ["Response", "Data", "email"] false,
  .lit "\",\n  \"createdAt\": \"".data,
  .var ["Response", "Data", "createdAt"] false,
  .lit "\",\n  \"preferences\": \x7b\n    \"isPublic\": ".data,
  .var ["Response", "Data", "preferences", "isPublic"] false,
  .lit ",\n    \"showEmail\": ".data,
  .var ["Response", "Data", "preferences", "showEmail"] false,
  .lit ",\n    \"theme\": \"".data,
  .var ["Response", "Data", "preferences", "theme"] false,
  .lit "\",\n    \"tags\": ".data,
  .var ["Response", "Data", "preferences", "tags"] false,
  .lit ",\n    \"settings\": ".data,
  .var ["Response", "Data", "preferences", "settings"] true,
  .lit ",\n    \"notifications\": ".data,
  .var ["Response", "Data", "preferences", "notifications"] true,
  .lit "\n  \x7d\n\x7d".data]

set_option maxRecDepth 40000 in
/-- The request template of `update_user_preferences` parses to its
part decomposition. -/
theorem parseTemplate_updatePrefsReq :
    parseTemplate "\x7b\n  \"isPublic\": \x7b\x7b.Args.isPublic\x7d\x7d,\n  \"showEmail\": \x7b\x7b.Args.showEmail\x7d\x7d,\n  \"theme\": \"\x7b\x7b.Args.theme\x7d\x7d\",\n  \"tags\": \x7b\x7b.Args.tags\x7d\x7d,\n  \"settings\": \x7b\x7b toJSON .Args.settings \x7d\x7d,\n  \"notifications\": \x7b\x7b .Args.notifications \x7d\x7d\n\x7d"
      = some updatePrefsReqParts := by rfl

set_option maxRecDepth 100000 in
/-- The response template of `update_user_preferences` parses to its
part decomposition. -/
theorem parseTemplate_updatePrefsResp :
    parseTemplate "\x7b\n  \"id\": \"\x7b\x7b.Response.Data.id\x7d\x7d\",\n  \"username\": \"\x7b\x7b.Response.Data.username\x7d\x7d\",\n  \"email\": \"\x7b\x7b.Response.Data.email\x7d\x7d\",\n  \"createdAt\": \"\x7b\x7b.Response.Data.createdAt\x7d\x7d\",\n  \"preferences\": \x7b\n    \"isPublic\": \x7b\x7b.Response.Data.preferences.isPublic\x7d\x7d,\n    \"showEmail\": \x7b\x7b.Response.Data.preferences.showEmail\x7d\x7d,\n    \"theme\": \"\x7b\x7b.Response.Data.preferences.theme\x7d\x7d\",\n    \"tags\": \x7b\x7b.Response.Data.preferences.tags\x7d\x7d,\n    \"settings\": \x7b\x7b toJSON .Response.Data.preferences.settings \x7d\x7d,\n    \"notifications\": \x7b\x7b toJSON .Response.Data.preferences.notifications \x7d\x7d\n  \x7d\n\x7d"
      = some updatePrefsRespParts := by rfl

/-- The `Authorization` header template parses to one placeholder. -/
theorem parseTemplate_authHeader :
    parseTemplate "\x7b\x7b.Request.Headers.Authorization\x7d\x7d"
      = some [.var ["Request", "Headers", "Authorization"] false] := by rfl

/-- The `Cookie` header template parses to one placeholder. -/
theorem parseTemplate_cookieHeader :
    parseTemplate "\x7b\x7b.Config.Cookie\x7d\x7d"
      = some [.var ["Config", "Cookie"] false] := by rfl

/-- The literal `Content-Type` header parses to one literal part. -/
theorem parseTemplate_contentType :
    parseTemplate "application/json" = some [.lit "application/json".data] := by rfl

/-- An `update_user_preferences` invocation carrying the email path
parameter, the six structured body argument values, and the inbound
`Authorization` header. -/
def updatePrefsInv (email authHdr : String) (isPublic showEmail : Bool)
    (theme : String) (tags : List String) (settings : Json)
    (notifications : List Notification) : Invocation where
  pathParams := [("email", email)]
  queryParams := []
  bodyArgs := [("isPublic", .bool isPublic), ("showEmail", .bool showEmail),
    ("theme", .str theme), ("tags", listToArr (tags.map .str)),
    ("settings", settings),
    ("notifications", listToArr (notifications.map notifToJson))]
  formFields := []
  headers := [("Authorization", authHdr)]

/-- The mock backend behind `update_user_preferences` at the HTTP string
boundary: the request body text is decoded as JSON (gin binds the body),
handed to the PUT handler, and the response value is marshalled back to
text (`c.JSON`). -/
def mockPutUpstream (users : List (String × User)) (email : String)
    (body : String) : Nat × String :=
  match parseJson body with
  | none => (400, serStr errBody)
  | some j =>
    ((putPreferences users email j).1, serStr (putPreferences users email j).2.1)

/-- The preferences struct holding the six bound argument values. -/
def boundPrefs (isPublic showEmail : Bool) (theme : String)
    (tags : List String) (settings : Json)
    (notifications : List Notification) : Preferences :=
  ⟨isPublic, showEmail, theme, some tags, some settings, some notifications⟩

/-- Field decomposition of the rendered request body. -/
def updatePrefsReqFields (isPublic showEmail : Bool) (theme : String)
    (tags : List String) (settings : Json)
    (notifications : List Notification) : List FieldText := [
  ⟨"\n  ".data, "isPublic", [' '], serVal (.bool isPublic), .bool isPublic, []⟩,
  ⟨"\n  ".data, "showEmail", [' '], serVal (.bool showEmail), .bool showEmail, []⟩,
  ⟨"\n  ".data, "theme", [' '], serVal (.str theme), .str theme, []⟩,
  ⟨"\n  ".data, "tags", [' '], serVal (listToArr (tags.map .str)),
    listToArr (tags.map .str), []⟩,
  ⟨"\n  ".data, "settings", [' '], serVal settings, settings, []⟩,
  ⟨"\n  ".data, "notifications", [' '],
    serVal (listToArr (notifications.map notifToJson)),
    listToArr (notifications.map notifToJson), "\n".data⟩]

/-- Field decomposition of the nested `preferences` object of the rendered
response body. -/
def updatePrefsInnerFields (isPublic showEmail : Bool) (theme : String)
    (tags : List String) (settings : Json)
    (notifications : List Notification) : List FieldText := [
  ⟨"\n    ".data, "isPublic", [' '], serVal (.bool isPublic), .bool isPublic, []⟩,
  ⟨"\n    ".data, "showEmail", [' '], serVal (.bool showEmail), .bool showEmail, []⟩,
  ⟨"\n    ".data, "theme", [' '], serVal (.str theme), .str theme, []⟩,
  ⟨"\n    ".data, "tags", [' '], serVal (listToArr (tags.map .str)),
    listToArr (tags.map .str), []⟩,
  ⟨"\n    ".data, "settings", [' '], serVal settings, settings, []⟩,
  ⟨"\n    ".data, "notifications", [' '],
    serVal (listToArr (notifications.map notifToJson)),
    listToArr (notifications.map notifToJson), "\n  ".data⟩]

/-- Field decomposition of the rendered response body. -/
def updatePrefsRespFields (u : User) (isPublic showEmail : Bool)
    (theme : String) (tags : List String) (settings : Json)
    (notifications : List Notification) : List FieldText := [
  ⟨"\n  ".data, "id", [' '], serVal (.str u.id), .str u.id, []⟩,
  ⟨"\n  ".data, "username", [' '], serVal (.str u.username), .str u.username, []⟩,
  ⟨"\n  ".data, "email", [' '], serVal (.str u.email), .str u.email, []⟩,
  ⟨"\n  ".data, "createdAt", [' '], serVal (.str u.createdAt), .str u.createdAt, []⟩,
  ⟨"\n  ".data, "preferences", [' '],
    '\x7b' :: fieldsText (updatePrefsInnerFields isPublic showEmail theme tags
      settings notifications),
    fieldsJson (updatePrefsInnerFields isPublic showEmail theme tags settings
      notifications),
    "\n".data⟩]

set_option maxRecDepth 200000 in
/-- **C2** — Round-trip through `update_user_preferences` and the mock
PUT backend: binding the six declared body arguments, rendering the
`requestBody` template, letting the mock `PUT /users/:email/preferences`
handler decode the rendered text, store the preferences and echo the
updated user, and rendering the `responseBody` template yields a string
whose parsed JSON carries exactly the bound argument values —
type-faithfully for the booleans, the string, the array and object
values. -/
theorem roundtrip_update_preferences
    (authToken authHdr email theme : String)
    (users : List (String × User)) (u : User)
    (hu : lookupAssoc users email = some u)
    (hid : safeStr u.id = true) (hun : safeStr u.username = true)
    (hem : safeStr u.email = true) (hca : safeStr u.createdAt = true)
    (hth : safeStr theme = true)
    (isPublic showEmail : Bool)
    (tags : List String)
    (htags : ∀ s ∈ tags, s ∈ ["developer", "designer", "manager", "tester"])
    (settings : Json) (hsafe : Safe settings = true)
    (hobj : isObjChain settings = true) (hnorm : goNorm settings = settings)
    (notifications : List Notification)
    (hnt : ∀ n ∈ notifications,
      safeStr n.ntype = true ∧ safeStr n.channel = true) :
    ∃ respText reqSent : String,
      runPipeline updateUserPreferencesTool (mockServer authToken).config
          (updatePrefsInv email authHdr isPublic showEmail theme tags settings
            notifications)
          (mockPutUpstream users email)
        = (.success respText, [reqSent]) ∧
      parseJson reqSent
        = some (fieldsJson (updatePrefsReqFields isPublic showEmail theme tags
            settings notifications)) ∧
      ∃ v : Json, parseJson respText = some v ∧
        jlookupPath v ["id"] = some (.str u.id) ∧
        jlookupPath v ["username"] = some (.str u.username) ∧
        jlookupPath v ["email"] = some (.str u.email) ∧
        jlookupPath v ["createdAt"] = some (.str u.createdAt) ∧
        jlookupPath v ["preferences", "isPublic"] = some (.bool isPublic) ∧
        jlookupPath v ["preferences", "showEmail"] = some (.bool showEmail) ∧
        jlookupPath v ["preferences", "theme"] = some (.str theme) ∧
        jlookupPath v ["preferences", "tags"]
          = some (listToArr (tags.map .str)) ∧
        jlookupPath v ["preferences", "settings"] = some settings ∧
        jlookupPath v ["preferences", "notifications"]
          = some (listToArr (notifications.map notifToJson)) := by
  have htagsSafe : ∀ s ∈ tags, safeStr s = true := by
    intro s hs
    have h := htags s hs
    simp at h
    rcases h with rfl | rfl | rfl | rfl <;> decide
  have hgoodReq : ∀ f ∈ updatePrefsReqFields isPublic showEmail theme tags
      settings notifications, goodField f := by
    intro f hf
    simp only [updatePrefsReqFields, List.mem_cons, List.not_mem_nil,
      or_false] at hf
    rcases hf with rfl | rfl | rfl | rfl | rfl | rfl
    · exact goodField_serVal _ _ _ _ _ (by decide) (by decide) (by decide)
        (by decide) rfl
    · exact goodField_serVal _ _ _ _ _ (by decide) (by decide) (by decide)
        (by decide) rfl
    · exact goodField_serVal _ _ _ _ _ (by decide) (by decide) (by decide)
        (by decide) hth
    · exact goodField_serVal _ _ _ _ _ (by decide) (by decide) (by decide)
        (by decide) (Safe_tagsArr tags htagsSafe)
    · exact goodField_serVal _ _ _ _ _ (by decide) (by decide) (by decide)
        (by decide) hsafe
    · exact goodField_serVal _ _ _ _ _ (by decide) (by decide) (by decide)
        (by decide) (Safe_notifsArr notifications hnt)
  have hgoodInn : ∀ f ∈ updatePrefsInnerFields isPublic showEmail theme tags
      settings notifications, goodField f := by
    intro f hf
    simp only [updatePrefsInnerFields, List.mem_cons, List.not_mem_nil,
      or_false] at hf
    rcases hf with rfl | rfl | rfl | rfl | rfl | rfl
    · exact goodField_serVal _ _ _ _ _ (by decide) (by decide) (by decide)
        (by decide) rfl
    · exact goodField_serVal _ _ _ _ _ (by decide) (by decide) (by decide)
        (by decide) rfl
    · exact goodField_serVal _ _ _ _ _ (by decide) (by decide) (by decide)
        (by decide) hth
    · exact goodField_serVal _ _ _ _ _ (by decide) (by decide) (by decide)
        (by decide) (Safe_tagsArr tags htagsSafe)
    · exact goodField_serVal _ _ _ _ _ (by decide) (by decide) (by decide)
        (by decide) hsafe
    · exact goodField_serVal _ _ _ _ _ (by decide) (by decide) (by decide)
        (by decide) (Safe_notifsArr notifications hnt)
  have hgoodResp : ∀ f ∈ updatePrefsRespFields u isPublic showEmail theme tags
      settings notifications, goodField f := by
    intro f hf
    simp only [updatePrefsRespFields, List.mem_cons, List.not_mem_nil,
      or_false] at hf
    rcases hf with rfl | rfl | rfl | rfl | rfl
    · exact goodField_serVal _ _ _ _ _ (by decide) (by decide) (by decide)
        (by decide) hid
    · exact goodField_serVal _ _ _ _ _ (by decide) (by decide) (by decide)
        (by decide) hun
    · exact goodField_serVal _ _ _ _ _ (by decide) (by decide) (by decide)
        (by decide) hem
    · exact goodField_serVal _ _ _ _ _ (by decide) (by decide) (by decide)
        (by decide) hca
    · exact goodField_objText _ _ _ _ _ (by simp [updatePrefsInnerFields])
        hgoodInn (by decide) (by decide) (by decide) (by decide)
  have hbind : bindArgs
      (updatePrefsInv email authHdr isPublic showEmail theme tags settings
        notifications) updateUserPreferencesTool.args
      = .ok [("email", Json.str email), ("isPublic", .bool isPublic),
          ("showEmail", .bool showEmail), ("theme", .str theme),
          ("tags", listToArr (tags.map .str)), ("settings", settings),
          ("notifications", listToArr (notifications.map notifToJson))] := by
    simp [bindArgs, bindArg, updateUserPreferencesTool, updatePrefsInv,
      rawValueAt, lookupAssoc, coerceValue, coerceBool, Option.map,
      validateValue_tagsArr tags htags, validateValue_notifsArr notifications,
      validateValue_propNil, hobj]
  have hreqR : renderParts
      ⟨[("email", Json.str email), ("isPublic", .bool isPublic),
          ("showEmail", .bool showEmail), ("theme", .str theme),
          ("tags", listToArr (tags.map .str)), ("settings", settings),
          ("notifications", listToArr (notifications.map notifToJson))],
        (mockServer authToken).config,
        (updatePrefsInv email authHdr isPublic showEmail theme tags settings
          notifications).headers, none⟩ updatePrefsReqParts
      = .ok ('\x7b' :: fieldsText (updatePrefsReqFields isPublic showEmail
          theme tags settings notifications)) := by
    simp [renderParts, updatePrefsReqParts, updatePrefsReqFields, lookupPath,
      lookupAssoc, interpVal_listToArr, interpVal_bool, interpVal_str,
      fieldsText, serVal_str]
  have hreqP : parseJson ⟨'\x7b' :: fieldsText (updatePrefsReqFields isPublic
      showEmail theme tags settings notifications)⟩
      = some (fieldsJson (updatePrefsReqFields isPublic showEmail theme tags
          settings notifications)) := by
    have hPT := parsesTo_objText
      (updatePrefsReqFields isPublic showEmail theme tags settings
        notifications) (by simp [updatePrefsReqFields]) hgoodReq
      ('\x7b' :: fieldsText (updatePrefsReqFields isPublic showEmail theme
        tags settings notifications)) [] rfl
      (by rw [skipWs_cons_not_ws (c := '\x7b') (by decide), List.append_nil])
    exact parseJson_of_parseValW _ _ [] hPT rfl
  have hdec : decodePreferences (fieldsJson (updatePrefsReqFields isPublic
      showEmail theme tags settings notifications))
      = some (boundPrefs isPublic showEmail theme tags settings
          notifications) := by
    have hm1 : matchingValues (fieldsJson (updatePrefsReqFields isPublic
        showEmail theme tags settings notifications)) "isPublic"
        = [.bool isPublic] := by
      simp [fieldsJson, updatePrefsReqFields, matchingValues, lowerStr_isPublic,
        lowerStr_showEmail, lowerStr_theme, lowerStr_tags, lowerStr_settings,
        lowerStr_notifications]
    have hm2 : matchingValues (fieldsJson (updatePrefsReqFields isPublic
        showEmail theme tags settings notifications)) "showEmail"
        = [.bool showEmail] := by
      simp [fieldsJson, updatePrefsReqFields, matchingValues, lowerStr_isPublic,
        lowerStr_showEmail, lowerStr_theme, lowerStr_tags, lowerStr_settings,
        lowerStr_notifications]
    have hm3 : matchingValues (fieldsJson (updatePrefsReqFields isPublic
        showEmail theme tags settings notifications)) "theme"
        = [.str theme] := by
      simp [fieldsJson, updatePrefsReqFields, matchingValues, lowerStr_isPublic,
        lowerStr_showEmail, lowerStr_theme, lowerStr_tags, lowerStr_settings,
        lowerStr_notifications]
    have hm4 : matchingValues (fieldsJson (updatePrefsReqFields isPublic
        showEmail theme tags settings notifications)) "tags"
        = [listToArr (tags.map .str)] := by
      simp [fieldsJson, updatePrefsReqFields, matchingValues, lowerStr_isPublic,
        lowerStr_showEmail, lowerStr_theme, lowerStr_tags, lowerStr_settings,
        lowerStr_notifications]
    have hm5 : matchingValues (fieldsJson (updatePrefsReqFields isPublic
        showEmail theme tags settings notifications)) "settings"
        = [settings] := by
      simp [fieldsJson, updatePrefsReqFields, matchingValues, lowerStr_isPublic,
        lowerStr_showEmail, lowerStr_theme, lowerStr_tags, lowerStr_settings,
        lowerStr_notifications]
    have hm6 : matchingValues (fieldsJson (updatePrefsReqFields isPublic
        showEmail theme tags settings notifications)) "notifications"
        = [listToArr (notifications.map notifToJson)] := by
      simp [fieldsJson, updatePrefsReqFields, matchingValues, lowerStr_isPublic,
        lowerStr_showEmail, lowerStr_theme, lowerStr_tags, lowerStr_settings,
        lowerStr_notifications]
    refine decodePreferences_of_fields _ _ _ _ _ _ _ ?_ ?_ ?_ ?_ ?_ ?_ ?_
    · simp [fieldsJson, updatePrefsReqFields, isObjChain]
    · rw [hm1]; rfl
    · rw [hm2]; rfl
    · rw [hm3]; rfl
    · rw [hm4]; exact foldTagsF_arr tags
    · rw [hm5]; exact foldSettingsF_obj settings hobj hnorm
    · rw [hm6]; exact foldNotifsF_arr notifications
  have hput : putPreferences users email (fieldsJson (updatePrefsReqFields
      isPublic showEmail theme tags settings notifications))
      = (200, userToJson { u with preferences := (boundPrefs isPublic showEmail
            theme tags settings notifications) },
          insertAssoc users email { u with preferences := (boundPrefs isPublic
            showEmail theme tags settings notifications) }) := by
    unfold putPreferences
    rw [hu, hdec]
  have hup : mockPutUpstream users email ⟨'\x7b' :: fieldsText
      (updatePrefsReqFields isPublic showEmail theme tags settings
        notifications)⟩
      = (200, serStr (userToJson { u with preferences := (boundPrefs isPublic
          showEmail theme tags settings notifications) })) := by
    unfold mockPutUpstream
    rw [hreqP]
    simp [hput]
  have hSafePrefs : Safe (prefsToJson (boundPrefs isPublic showEmail theme
      tags settings notifications)) = true := by
    simp [prefsToJson, boundPrefs, Safe, isObjChain, hth, hnorm, hsafe,
      Safe_tagsArr tags htagsSafe, Safe_notifsArr notifications hnt,
      isArrChain_listToArr]
    all_goals decide
  have hSafeU : Safe (userToJson { u with preferences := (boundPrefs isPublic
      showEmail theme tags settings notifications) }) = true := by
    simp [userToJson, prefsToJson, boundPrefs, Safe, isObjChain, hid, hun,
      hem, hca, hth, hnorm, hsafe, Safe_tagsArr tags htagsSafe,
      Safe_notifsArr notifications hnt, isArrChain_listToArr]
    all_goals decide
  have hps := parseJson_serStr _ hSafeU
  have hrespR : renderParts
      ⟨[("email", Json.str email), ("isPublic", .bool isPublic),
          ("showEmail", .bool showEmail), ("theme", .str theme),
          ("tags", listToArr (tags.map .str)), ("settings", settings),
          ("notifications", listToArr (notifications.map notifToJson))],
        (mockServer authToken).config,
        (updatePrefsInv email authHdr isPublic showEmail theme tags settings
          notifications).headers,
        some (userToJson { u with preferences := (boundPrefs isPublic showEmail
          theme tags settings notifications) })⟩ updatePrefsRespParts
      = .ok ('\x7b' :: fieldsText (updatePrefsRespFields u isPublic showEmail
          theme tags settings notifications)) := by
    simp [renderParts, updatePrefsRespParts, updatePrefsRespFields,
      updatePrefsInnerFields, lookupPath, jlookupPath, jlookup, userToJson,
      prefsToJson, boundPrefs, interpVal_str, interpVal_bool,
      interpVal_listToArr, fieldsText, serVal_str, hnorm]
  have hFJeq : fieldsJson (updatePrefsRespFields u isPublic showEmail theme
      tags settings notifications)
      = userToJson { u with preferences := (boundPrefs isPublic showEmail theme
          tags settings notifications) } := by
    simp [fieldsJson, updatePrefsRespFields, updatePrefsInnerFields,
      userToJson, prefsToJson, boundPrefs, hnorm]
  have hrespP : parseJson ⟨'\x7b' :: fieldsText (updatePrefsRespFields u
      isPublic showEmail theme tags settings notifications)⟩
      = some (userToJson { u with preferences := (boundPrefs isPublic showEmail
          theme tags settings notifications) }) := by
    have hPT := parsesTo_objText
      (updatePrefsRespFields u isPublic showEmail theme tags settings
        notifications) (by simp [updatePrefsRespFields]) hgoodResp
      ('\x7b' :: fieldsText (updatePrefsRespFields u isPublic showEmail theme
        tags settings notifications)) [] rfl
      (by rw [skipWs_cons_not_ws (c := '\x7b') (by decide), List.append_nil])
    rw [← hFJeq]
    exact parseJson_of_parseValW _ _ [] hPT rfl
  have hreqBody : updateUserPreferencesTool.requestBody
      = some "\x7b\n  \"isPublic\": \x7b\x7b.Args.isPublic\x7d\x7d,\n  \"showEmail\": \x7b\x7b.Args.showEmail\x7d\x7d,\n  \"theme\": \"\x7b\x7b.Args.theme\x7d\x7d\",\n  \"tags\": \x7b\x7b.Args.tags\x7d\x7d,\n  \"settings\": \x7b\x7b toJSON .Args.settings \x7d\x7d,\n  \"notifications\": \x7b\x7b .Args.notifications \x7d\x7d\n\x7d" := rfl
  have hrespBody : updateUserPreferencesTool.responseBody
      = "\x7b\n  \"id\": \"\x7b\x7b.Response.Data.id\x7d\x7d\",\n  \"username\": \"\x7b\x7b.Response.Data.username\x7d\x7d\",\n  \"email\": \"\x7b\x7b.Response.Data.email\x7d\x7d\",\n  \"createdAt\": \"\x7b\x7b.Response.Data.createdAt\x7d\x7d\",\n  \"preferences\": \x7b\n    \"isPublic\": \x7b\x7b.Response.Data.preferences.isPublic\x7d\x7d,\n    \"showEmail\": \x7b\x7b.Response.Data.preferences.showEmail\x7d\x7d,\n    \"theme\": \"\x7b\x7b.Response.Data.preferences.theme\x7d\x7d\",\n    \"tags\": \x7b\x7b.Response.Data.preferences.tags\x7d\x7d,\n    \"settings\": \x7b\x7b toJSON .Response.Data.preferences.settings \x7d\x7d,\n    \"notifications\": \x7b\x7b toJSON .Response.Data.preferences.notifications \x7d\x7d\n  \x7d\n\x7d" := rfl
  have hhdrs : renderHeaders
      ⟨[("email", Json.str email), ("isPublic", .bool isPublic),
          ("showEmail", .bool showEmail), ("theme", .str theme),
          ("tags", listToArr (tags.map .str)), ("settings", settings),
          ("notifications", listToArr (notifications.map notifToJson))],
        (mockServer authToken).config,
        (updatePrefsInv email authHdr isPublic showEmail theme tags settings
          notifications).headers, none⟩ updateUserPreferencesTool.headers
      = .ok [("Content-Type", "application/json"), ("Authorization", authHdr),
          ("Cookie", "123")] := by
    simp [renderHeaders, updateUserPreferencesTool, updatePrefsInv, mockServer,
      render, parseTemplate_contentType, parseTemplate_authHeader,
      parseTemplate_cookieHeader, renderParts, lookupPath, lookupAssoc,
      interpVal_str]
  refine ⟨⟨'\x7b' :: fieldsText (updatePrefsRespFields u isPublic showEmail
      theme tags settings notifications)⟩,
    ⟨'\x7b' :: fieldsText (updatePrefsReqFields isPublic showEmail theme tags
      settings notifications)⟩, ?_, hreqP, ?_⟩
  · simp only [runPipeline, hbind, hhdrs, hreqBody, hrespBody, render,
      parseTemplate_updatePrefsReq, parseTemplate_updatePrefsResp, hreqR,
      hrespR, hup, hps, Except.map, Option.getD]
    rfl
  · refine ⟨userToJson { u with preferences := (boundPrefs isPublic showEmail
      theme tags settings notifications) }, hrespP, ?_, ?_, ?_, ?_, ?_, ?_,
      ?_, ?_, ?_, ?_⟩
    all_goals
      simp [userToJson, prefsToJson, boundPrefs, jlookupPath, jlookup, hnorm]

/-- Witness for the round-trip theorem at a concrete user, token, theme,
tag list, settings object and notification list. -/
theorem roundtrip_update_preferences_witness :
    (lookupAssoc [("a@x.com", witnessUser)] "a@x.com" = some witnessUser ∧
     safeStr witnessUser.id = true ∧ safeStr witnessUser.username = true ∧
     safeStr witnessUser.email = true ∧ safeStr witnessUser.createdAt = true ∧
     safeStr "dark" = true ∧
     (∀ s ∈ ["developer"], s ∈ ["developer", "designer", "manager", "tester"]) ∧
     Safe (.objCons "k" (.num 1) .objNil) = true ∧
     isObjChain (.objCons "k" (.num 1) .objNil) = true ∧
     goNorm (.objCons "k" (.num 1) .objNil) = .objCons "k" (.num 1) .objNil ∧
     (∀ n ∈ [(⟨"push", "system", true, 2⟩ : Notification)],
       safeStr n.ntype = true ∧ safeStr n.channel = true)) ∧
    (∃ respText reqSent : String,
      runPipeline updateUserPreferencesTool (mockServer "tok").config
          (updatePrefsInv "a@x.com" "Bearer tok" true false "dark"
            ["developer"] (.objCons "k" (.num 1) .objNil)
            [⟨"push", "system", true, 2⟩])
          (mockPutUpstream [("a@x.com", witnessUser)] "a@x.com")
        = (.success respText, [reqSent]) ∧
      parseJson reqSent
        = some (fieldsJson (updatePrefsReqFields true false "dark"
            ["developer"] (.objCons "k" (.num 1) .objNil)
            [⟨"push", "system", true, 2⟩])) ∧
      ∃ v : Json, parseJson respText = some v ∧
        jlookupPath v ["id"] = some (.str witnessUser.id) ∧
        jlookupPath v ["username"] = some (.str witnessUser.username) ∧
        jlookupPath v ["email"] = some (.str witnessUser.email) ∧
        jlookupPath v ["createdAt"] = some (.str witnessUser.createdAt) ∧
        jlookupPath v ["preferences", "isPublic"] = some (.bool true) ∧
        jlookupPath v ["preferences", "showEmail"] = some (.bool false) ∧
        jlookupPath v ["preferences", "theme"] = some (.str "dark") ∧
        jlookupPath v ["preferences", "tags"]
          = some (listToArr ((["developer"] : List String).map .str)) ∧
        jlookupPath v ["preferences", "settings"]
          = some (.objCons "k" (.num 1) .objNil) ∧
        jlookupPath v ["preferences", "notifications"]
          = some (listToArr
              (([⟨"push", "system", true, 2⟩] : List Notification).map
                notifToJson))) :=
  ⟨⟨by decide, by decide, by decide, by decide, by decide, by decide,
    by decide, by decide, by decide, by decide, by decide⟩,
   roundtrip_update_preferences "tok" "Bearer tok" "a@x.com" "dark"
     [("a@x.com", witnessUser)] witnessUser (by decide) (by decide)
     (by decide) (by decide) (by decide) (by decide) true false ["developer"]
     (by decide) (.objCons "k" (.num 1) .objNil) (by decide) (by decide)
     (by decide) [⟨"push", "system", true, 2⟩] (by decide)⟩

end Unla
